import Mathlib

/-!
# Encoder cache (`kvcache/encoder.go`)

A shallow embedding of `EncoderCache` and its methods, followed by the
properties the specification states about them.

Conventions of the embedding.

* A method with a pointer receiver takes the cache state and returns the new
  state.  A method that can panic returns `Except Panic _`; the state a
  recovered panic would leave behind is not exposed.
* A Go `error` result is `Option GoError`, `none` being `nil`.
* `int` and `int32` values are `Int`.  The only arithmetic in the file is
  `layer - len + 1` in `SetLayer`; it wraps around modulo 2^64 (`wrapInt`), as
  Go's `int` does on the 64-bit platforms.  Slices are lists: how much memory
  `make` can obtain for a non-negative length is not modelled, and what is
  proved of a `SetLayer` that grows the store is proved of the calls that
  complete.
* `ml.Tensor` values that are receivers of a method call (`key`, `value`) are
  elements of a type `T`; a tensor that the code compares with `nil` (a stored
  slot, the result of `Empty`) is an `Option T`.
* The interfaces of package `ml` are not part of this file: tensor operations
  are a parameter (`ml.TensorOps`), a context is the record of what was asked
  of it (`ml.Context`).  The caller's context and the cache's own context are
  distinct objects.
* A state is reachable when a list of `Call`s, run by `calls` from
  `NewEncoderCache`, completes with it; every method, `Close` included, is a
  `Call`.
-/

set_option linter.unusedVariables false

/-- Element type tag `ml.DType` (an integer enumeration). -/
abbrev ml.DType := Nat

/-- Modelled from the spec: `ml.CacheConfig` is declared in package `ml`;
these are the two fields `encoder.go` reads (`cachePadding`, `permutedValue`). -/
structure ml.CacheConfig where
  CachePadding : Int
  PermutedV : Bool
deriving DecidableEq, Repr

/-- The zero value of `ml.CacheConfig` (`var config ml.CacheConfig`). -/
def ml.CacheConfig.zero : ml.CacheConfig :=
  { CachePadding := 0, PermutedV := false }

/-- Modelled from the spec: `ml.Context` ("allocateEmpty, scheduleCopy, close"),
as the record of the requests made to it: the buffers handed out by `Empty`
(oldest first), the tensors passed to `Forward` (in call order) and whether
`Close` was called. -/
structure ml.Context (T : Type) where
  allocated : List (Option T)
  forwarded : List T
  closed : Bool
deriving DecidableEq, Repr

/-- Modelled from the spec: the methods of `ml.Tensor` that `encoder.go` calls
(`DType`, `Shape`, `Permute`, `Copy`) and the buffer `ml.Context.Empty` hands
out, as total functions following their Go signatures. -/
structure ml.TensorOps (T : Type) where
  DType : T → ml.DType
  Shape : T → List Int
  Permute : ml.Context T → T → List Int → T
  Copy : ml.Context T → T → Option T → T
  Empty : ml.Context T → ml.DType → List Int → Option T

/-- Modelled from the spec: `ml.Backend` as seen by `Init`: the context that
`NewContext()` returns and, when the backend implements
`ml.BackendCacheConfig`, the value of its `CacheConfig()`. -/
structure ml.Backend (T : Type) where
  NewContext : ml.Context T
  BackendCacheConfig : Option ml.CacheConfig

/-- Method `ctx.Empty(dtype, shape...)`: the buffer and the context afterwards. -/
def ml.Context.Empty {T : Type} (ops : ml.TensorOps T) (ctx : ml.Context T)
    (dtype : ml.DType) (shape : List Int) : Option T × ml.Context T :=
  let t := ops.Empty ctx dtype shape
  (t, { ctx with allocated := ctx.allocated ++ [t] })

/-- Method `ctx.Forward(tensors...)`: schedules the tensors, in order. -/
def ml.Context.Forward {T : Type} (ctx : ml.Context T) (tensors : List T) : ml.Context T :=
  { ctx with forwarded := ctx.forwarded ++ tensors }

/-- Method `ctx.Close()`. -/
def ml.Context.Close {T : Type} (ctx : ml.Context T) : ml.Context T :=
  { ctx with closed := true }

namespace kvcache

/-- The ways a method of `EncoderCache` can panic. -/
inductive Panic where
  /-- Line 57: "encoder cache is unable to enforce requested CachePadding". -/
  | cachePadding (requested : Int)
  /-- Line 65: "config cannot be changed after being previously set". -/
  | configChanged
  /-- Line 119: "encoder cache does not support multiple sequences". -/
  | multipleSequences
  /-- Go runtime: index out of range. -/
  | indexOutOfRange
  /-- Go runtime: nil pointer dereference. -/
  | nilDereference
  /-- Go runtime: makeslice: len out of range. -/
  | makeLenOutOfRange
  /-- Not a panic of the code: the answer of `call` to a layer that is not a
  value of Go's `int`, which no caller can pass. -/
  | notAnInt
deriving DecidableEq, Repr

/-- A non-nil Go `error` value. -/
structure GoError where
  msg : String
deriving DecidableEq, Repr

/-- The struct `EncoderCache` (lines 15-41). -/
structure EncoderCache (T : Type) where
  config : Option ml.CacheConfig
  curLayer : Int
  curPos : Int
  encoderCached : Bool
  encoderPos : Int
  cacheCtx : Option (ml.Context T)
  keys : List (Option T)
  values : List (Option T)
deriving DecidableEq, Repr

/-- Dereference of a pointer or interface value that may be nil. -/
def deref {α : Type} (p : Option α) : Except Panic α :=
  match p with
  | some a => .ok a
  | none => .error .nilDereference

/-- Slice read `xs[i]`. -/
def index {α : Type} (xs : List α) (i : Int) : Except Panic α :=
  if i < 0 then .error .indexOutOfRange
  else
    match xs[i.toNat]? with
    | some x => .ok x
    | none => .error .indexOutOfRange

/-- Slice write `xs[i] = x`. -/
def assign {α : Type} (xs : List α) (i : Int) (x : α) : Except Panic (List α) :=
  if i < 0 then .error .indexOutOfRange
  else if i.toNat < xs.length then .ok (xs.set i.toNat x)
  else .error .indexOutOfRange

/-- Allocation `make([]ml.Tensor, n)`: `n` nil entries. -/
def make {T : Type} (n : Int) : Except Panic (List (Option T)) :=
  if n < 0 then .error .makeLenOutOfRange
  else .ok (List.replicate n.toNat none)

/-- Largest value of Go's `int` (64 bits). -/
def maxInt : Int := 2 ^ 63 - 1

/-- Smallest value of Go's `int` (64 bits). -/
def minInt : Int := -2 ^ 63

/-- The value of an `int` expression whose mathematical value is `x`: Go's
integer arithmetic wraps around modulo 2^64. -/
def wrapInt (x : Int) : Int :=
  (x + 2 ^ 63) % 2 ^ 64 - 2 ^ 63

/-- The integer is a value of Go's `int`. -/
def IsInt (x : Int) : Prop :=
  minInt ≤ x ∧ x ≤ maxInt

instance (x : Int) : Decidable (IsInt x) :=
  inferInstanceAs (Decidable (_ ∧ _))

/-- Function `NewEncoderCache` (lines 43-45): every field has its zero value. -/
def NewEncoderCache {T : Type} : EncoderCache T :=
  { config := none, curLayer := 0, curPos := 0, encoderCached := false,
    encoderPos := 0, cacheCtx := none, keys := [], values := [] }

/-- Method `Init` (lines 47-61). -/
def Init {T : Type} (c : EncoderCache T) (backend : ml.Backend T) (dtype : ml.DType)
    (capacity : Int) : Except Panic (EncoderCache T) :=
  let c : EncoderCache T :=
    match c.config with
    | none =>
      let config : ml.CacheConfig :=
        match backend.BackendCacheConfig with
        | some cc => cc
        | none => ml.CacheConfig.zero
      { c with config := some config }
    | some _ => c
  match c.config with
  | none => .error .nilDereference
  | some config =>
    if config.CachePadding ≠ 0 ∧ config.CachePadding ≠ 1 then
      .error (.cachePadding config.CachePadding)
    else
      .ok { c with cacheCtx := some backend.NewContext }

/-- Method `SetConfig` (lines 63-69). -/
def SetConfig {T : Type} (c : EncoderCache T) (config : ml.CacheConfig) :
    Except Panic (EncoderCache T) :=
  match c.config with
  | some _ => .error .configChanged
  | none => .ok { c with config := some config }

/-- Method `Close` (lines 71-73). -/
def Close {T : Type} (c : EncoderCache T) : Except Panic (EncoderCache T) :=
  match c.cacheCtx with
  | none => .error .nilDereference
  | some cacheCtx => .ok { c with cacheCtx := some cacheCtx.Close }

/-- Method `StartForward` (lines 75-80). -/
def StartForward {T : Type} (c : EncoderCache T) (ctx : ml.Context T) (positions : List Int)
    (seqs : List Int) : Except Panic (EncoderCache T × Option GoError) := do
  let p ← index positions 0
  pure ({ c with curPos := p }, none)

/-- Method `SetLayer` (lines 82-89); the two lengths passed to `make` are `int`
expressions and wrap around. -/
def SetLayer {T : Type} (c : EncoderCache T) (layer : Int) : Except Panic (EncoderCache T) := do
  let c ←
    if layer ≥ c.keys.length then do
      let newKeys ← make (wrapInt (layer - c.keys.length + 1))
      let c : EncoderCache T := { c with keys := c.keys ++ newKeys }
      let newValues ← make (wrapInt (layer - c.values.length + 1))
      pure { c with values := c.values ++ newValues }
    else pure c
  pure { c with curLayer := layer }

/-- Method `EncoderCached` (lines 91-93). -/
def EncoderCached {T : Type} (c : EncoderCache T) : Bool :=
  c.encoderCached

/-- Method `Get` (lines 95-97): key, value, mask and the state afterwards. -/
def Get {T : Type} (c : EncoderCache T) (ctx : ml.Context T) :
    Except Panic ((Option T × Option T × Option T) × EncoderCache T) := do
  let k ← index c.keys c.curLayer
  let v ← index c.values c.curLayer
  pure ((k, v, none), c)

/-- Method `Put` (lines 99-116): the state and the caller's context afterwards. -/
def Put {T : Type} (ops : ml.TensorOps T) (c : EncoderCache T) (ctx : ml.Context T)
    (key value : T) : Except Panic (EncoderCache T × ml.Context T) := do
  let c : EncoderCache T := { c with encoderPos := c.curPos }
  let c : EncoderCache T := { c with encoderCached := true }
  let config ← deref c.config
  let value : T := if config.PermutedV then ops.Permute ctx value [1, 2, 0, 3] else value
  let k ← index c.keys c.curLayer
  let absent ←
    if k.isNone then pure true
    else do
      let v ← index c.values c.curLayer
      pure v.isNone
  let c ←
    if absent then do
      let cacheCtx ← deref c.cacheCtx
      let (kbuf, cacheCtx) := cacheCtx.Empty ops (ops.DType key) (ops.Shape key)
      let keys ← assign c.keys c.curLayer kbuf
      let c : EncoderCache T := { c with keys := keys, cacheCtx := some cacheCtx }
      let (vbuf, cacheCtx) := cacheCtx.Empty ops (ops.DType value) (ops.Shape value)
      let values ← assign c.values c.curLayer vbuf
      pure { c with values := values, cacheCtx := some cacheCtx }
    else pure c
  let kdst ← index c.keys c.curLayer
  let vdst ← index c.values c.curLayer
  pure (c, ctx.Forward [ops.Copy ctx key kdst, ops.Copy ctx value vdst])

/-- Method `CopyPrefix` (lines 118-120). -/
def CopyPrefix {T : Type} (c : EncoderCache T) (srcSeq dstSeq : Int) (len : Int) :
    Except Panic (EncoderCache T) :=
  .error .multipleSequences

/-- Method `Remove` (lines 122-128): the state afterwards and the returned error. -/
def Remove {T : Type} (c : EncoderCache T) (seq : Int) (beginIndex endIndex : Int) :
    EncoderCache T × Option GoError :=
  let c : EncoderCache T :=
    if c.encoderPos ≥ beginIndex ∧ c.encoderPos < endIndex then
      { c with encoderCached := false }
    else c
  (c, none)

/-- An initialized cache: a config is fixed, the cache owns a context (both
hold after every successful `Init`), and the key store and the value store
have the same length (as in every state reachable from `NewEncoderCache`). -/
def Initialized {T : Type} (c : EncoderCache T) : Prop :=
  c.config.isSome = true ∧ c.cacheCtx.isSome = true ∧ c.keys.length = c.values.length

/-- The current layer is an index of the key store and of the value store. -/
def ValidLayer {T : Type} (c : EncoderCache T) : Prop :=
  0 ≤ c.curLayer ∧ c.curLayer < c.keys.length ∧ c.curLayer < c.values.length

instance {T : Type} (c : EncoderCache T) : Decidable (Initialized c) :=
  inferInstanceAs (Decidable (_ ∧ _ ∧ _))

instance {T : Type} (c : EncoderCache T) : Decidable (ValidLayer c) :=
  inferInstanceAs (Decidable (_ ∧ _ ∧ _))

/-- The slot of layer `l` holds no key buffer or no value buffer (condition of
line 107), or the store has no index `l` yet. -/
def SlotAbsent {T : Type} (c : EncoderCache T) (l : Nat) : Prop :=
  c.keys[l]?.join = none ∨ c.values[l]?.join = none

/-- Contract of `ml.Context.Empty` ("allocateEmpty(dtype, shape) -> Buffer"):
the buffer is not nil and has the requested element type and shape. -/
def EmptyFaithful {T : Type} (ops : ml.TensorOps T) : Prop :=
  ∀ (ctx : ml.Context T) (dtype : ml.DType) (shape : List Int),
    ∃ t, ops.Empty ctx dtype shape = some t ∧ ops.DType t = dtype ∧ ops.Shape t = shape

/-- The effective config in the words of the specification: the injected
config if one was set, else the backend's if it offers one, else the
zero-value config. -/
def effectiveConfig {T : Type} (c : EncoderCache T) (backend : ml.Backend T) : ml.CacheConfig :=
  match c.config, backend.BackendCacheConfig with
  | some injected, _ => injected
  | none, some offered => offered
  | none, none => { CachePadding := 0, PermutedV := false }

/-- The tensor `Put` stores as value (lines 103-105): `value` permuted by
`[1, 2, 0, 3]` when `PermutedV` is configured, `value` itself otherwise. -/
def storedValue {T : Type} (ops : ml.TensorOps T) (config : ml.CacheConfig) (ctx : ml.Context T)
    (value : T) : T :=
  if config.PermutedV then ops.Permute ctx value [1, 2, 0, 3] else value

/-- One step of a forward pass: `StartForward(ctx, positions, seqs)`,
`SetLayer(layer)`, `Put(ctx, key, value)`. -/
def forwardPut {T : Type} (ops : ml.TensorOps T) (c : EncoderCache T) (ctx : ml.Context T)
    (positions seqs : List Int) (layer : Int) (key value : T) :
    Except Panic (EncoderCache T × ml.Context T) := do
  let (c, _) ← StartForward c ctx positions seqs
  let c ← SetLayer c layer
  Put ops c ctx key value

/-- The calls `SetLayer(layer)`, `Get(ctx)`. -/
def getAt {T : Type} (c : EncoderCache T) (ctx : ml.Context T) (layer : Int) :
    Except Panic ((Option T × Option T × Option T) × EncoderCache T) := do
  let c ← SetLayer c layer
  Get c ctx

/-- The calls `SetLayer(layer)`, `Put(ctx, key, value)`, `Get(ctx)`: the key, the
value and the mask that `Get` returns. -/
def putGetAt {T : Type} (ops : ml.TensorOps T) (c : EncoderCache T) (ctx : ml.Context T)
    (layer : Int) (key value : T) : Except Panic (Option T × Option T × Option T) := do
  let c ← SetLayer c layer
  let (c, ctx) ← Put ops c ctx key value
  let (result, _) ← Get c ctx
  pure result

/-- The concrete scenario of the specification up to its `Put`: a new cache,
`cachePadding = 1` injected, `Init`, `StartForward([5])`, `SetLayer(0)`,
`Put(k0, v0)`. -/
def scenario {T : Type} (ops : ml.TensorOps T) (backend : ml.Backend T) (permutedV : Bool)
    (dtype : ml.DType) (capacity : Int) (ctx : ml.Context T) (seqs : List Int) (k0 v0 : T) :
    Except Panic (EncoderCache T × ml.Context T) := do
  let c ← SetConfig NewEncoderCache { CachePadding := 1, PermutedV := permutedV }
  let c ← Init c backend dtype capacity
  forwardPut ops c ctx [5] seqs 0 k0 v0

/-- Modelled from the spec: a concrete `Buffer` ("opaque handle exposing dtype,
shape, permute(axisOrder)"), used to evaluate the cache on concrete inputs. -/
structure Buffer where
  handle : Nat
  dtype : ml.DType
  shape : List Int
deriving DecidableEq, Repr

/-- Modelled from the spec: `permute(axisOrder)`: axis `i` of the result is
axis `axisOrder[i]` of the receiver. -/
def Buffer.permute (b : Buffer) (axisOrder : List Int) : Buffer :=
  { b with shape := axisOrder.map (fun a => b.shape.getD a.toNat 1) }

/-- Modelled from the spec: tensor operations on `Buffer`: `Empty` hands out a
fresh handle of the requested type and shape, `Copy` yields the scheduled
operation, shaped like its destination. -/
def bufferOps : ml.TensorOps Buffer where
  DType := fun b => b.dtype
  Shape := fun b => b.shape
  Permute := fun _ b axisOrder => b.permute axisOrder
  Copy := fun _ src dst =>
    match dst with
    | some d => { handle := src.handle, dtype := d.dtype, shape := d.shape }
    | none => src
  Empty := fun ctx dtype shape =>
    some { handle := 100 + ctx.allocated.length, dtype := dtype, shape := shape }

/-- A context to which nothing has been asked yet. -/
def emptyContext {T : Type} : ml.Context T :=
  { allocated := [], forwarded := [], closed := false }

/-- A backend that offers no cache config. -/
def plainBackend : ml.Backend Buffer :=
  { NewContext := emptyContext, BackendCacheConfig := none }

/-- A backend that asks for permuted values. -/
def permutingBackend : ml.Backend Buffer :=
  { NewContext := emptyContext, BackendCacheConfig := some { CachePadding := 1, PermutedV := true } }

/-- A sample key tensor. -/
def sampleKey : Buffer :=
  { handle := 1, dtype := 0, shape := [2, 3, 4, 1] }

/-- A sample value tensor. -/
def sampleValue : Buffer :=
  { handle := 2, dtype := 1, shape := [5, 6, 7, 1] }

/-- The cache after `Init` on `plainBackend` and `SetLayer(1)`: two absent slots. -/
def sampleCache : EncoderCache Buffer :=
  { config := some ml.CacheConfig.zero, curLayer := 1, curPos := 0, encoderCached := false,
    encoderPos := 0, cacheCtx := some emptyContext, keys := [none, none], values := [none, none] }

/-- A cache with two layers, layer 0 populated, layer 1 current and absent. -/
def twoLayerCache : EncoderCache Buffer :=
  { sampleCache with keys := [some sampleKey, none], values := [some sampleValue, none] }

/-- The cache after `Init` on `permutingBackend` and `SetLayer(0)`. -/
def permutedCache : EncoderCache Buffer :=
  { config := some { CachePadding := 1, PermutedV := true }, curLayer := 0, curPos := 0,
    encoderCached := false, encoderPos := 0, cacheCtx := some emptyContext,
    keys := [none], values := [none] }

/-- A call of a method of `EncoderCache`, with its arguments. -/
inductive Call (T : Type) where
  | init (backend : ml.Backend T) (dtype : ml.DType) (capacity : Int)
  | setConfig (config : ml.CacheConfig)
  | close
  | startForward (ctx : ml.Context T) (positions seqs : List Int)
  | setLayer (layer : Int)
  | get (ctx : ml.Context T)
  | put (ctx : ml.Context T) (key value : T)
  | copyPrefix (srcSeq dstSeq len : Int)
  | remove (seq beginIndex endIndex : Int)

/-- The effect of one call on the cache state; the returned values are dropped.
The layer of a `SetLayer` call is a Go `int`: another integer is no call. -/
def call {T : Type} (ops : ml.TensorOps T) (c : EncoderCache T) :
    Call T → Except Panic (EncoderCache T)
  | .init backend dtype capacity => Init c backend dtype capacity
  | .setConfig config => SetConfig c config
  | .close => Close c
  | .startForward ctx positions seqs => (StartForward c ctx positions seqs).map Prod.fst
  | .setLayer layer => if IsInt layer then SetLayer c layer else .error .notAnInt
  | .get ctx => (Get c ctx).map Prod.snd
  | .put ctx key value => (Put ops c ctx key value).map Prod.fst
  | .copyPrefix srcSeq dstSeq len => CopyPrefix c srcSeq dstSeq len
  | .remove seq beginIndex endIndex => .ok (Remove c seq beginIndex endIndex).1

/-- A sequence of calls, each made on the state the one before it left; the
result is a state only when every call completes. -/
def calls {T : Type} (ops : ml.TensorOps T) (c : EncoderCache T) :
    List (Call T) → Except Panic (EncoderCache T)
  | [] => .ok c
  | first :: rest =>
    match call ops c first with
    | .ok c2 => calls ops c2 rest
    | .error e => .error e

/-- A state reached from `NewEncoderCache()` by calls that all complete. -/
def Reachable {T : Type} (ops : ml.TensorOps T) (c : EncoderCache T) : Prop :=
  ∃ trace : List (Call T), calls ops NewEncoderCache trace = .ok c

/-- The layers passed to `SetLayer` in a sequence of calls, in call order. -/
def layersPassed {T : Type} : List (Call T) → List Int
  | [] => []
  | .setLayer layer :: rest => layer :: layersPassed rest
  | _ :: rest => layersPassed rest

/-- The store size in the words of the specification: 1 + the highest layer
index passed to `SetLayer`, and 0 when there is none (for non-negative layers). -/
def expectedSize {T : Type} (trace : List (Call T)) : Int :=
  (layersPassed trace).foldr max (-1) + 1

/-- The slot of layer `l` is populated: its key buffer and its value buffer are
both not nil (the negation of the condition of line 107). -/
def Populated {T : Type} (c : EncoderCache T) (l : Nat) : Prop :=
  ∃ kb vb, c.keys[l]? = some (some kb) ∧ c.values[l]? = some (some vb)

/-- The part of the contract of `ml.Context.Empty` that says the buffer it
hands out is not nil. -/
def EmptyNonNil {T : Type} (ops : ml.TensorOps T) : Prop :=
  ∀ (ctx : ml.Context T) (dtype : ml.DType) (shape : List Int),
    (ops.Empty ctx dtype shape).isSome = true

/-- The cache right after `Init` on `plainBackend`: no `SetLayer` yet. -/
def freshCache : EncoderCache Buffer :=
  { config := some ml.CacheConfig.zero, curLayer := 0, curPos := 0, encoderCached := false,
    encoderPos := 0, cacheCtx := some emptyContext, keys := [], values := [] }

/-- The cache after `Init` on `plainBackend`, `StartForward([5])`, `SetLayer(1)`
and a `Put` of `sampleKey` and `sampleValue`. -/
def cachedCache : EncoderCache Buffer :=
  { config := some ml.CacheConfig.zero, curLayer := 1, curPos := 5, encoderCached := true,
    encoderPos := 5,
    cacheCtx := some
      { allocated := [some { handle := 100, dtype := 0, shape := [2, 3, 4, 1] },
                      some { handle := 101, dtype := 1, shape := [5, 6, 7, 1] }],
        forwarded := [], closed := false },
    keys := [none, some { handle := 100, dtype := 0, shape := [2, 3, 4, 1] }],
    values := [none, some { handle := 101, dtype := 1, shape := [5, 6, 7, 1] }] }

/-- The calls `Init`, `StartForward([5])`, `SetLayer(1)`, `Put` that lead from a
new cache to `cachedCache`. -/
def sampleTrace : List (Call Buffer) :=
  [.init plainBackend 0 0, .startForward emptyContext [5] [0], .setLayer 1,
    .put emptyContext sampleKey sampleValue]

end kvcache

/-! ## Slice and `Put` lemmas -/

namespace kvcache

/-- A slice read inside the bounds returns the element. -/
theorem index_eq_ok {α : Type} (xs : List α) (i : Int) (x : α) (h0 : 0 ≤ i)
    (hx : xs[i.toNat]? = some x) : index xs i = .ok x := by
  have : ¬ i < 0 := by omega
  simp [index, this, hx]

/-- A slice write inside the bounds replaces the element. -/
theorem assign_eq_ok {α : Type} (xs : List α) (i : Int) (x : α) (h0 : 0 ≤ i)
    (hlt : i.toNat < xs.length) : assign xs i x = .ok (xs.set i.toNat x) := by
  have : ¬ i < 0 := by omega
  simp [assign, this, hlt]

/-- Method `Put` on a populated slot: nothing is allocated, the two copies are
scheduled. -/
theorem Put_populated {T : Type} (ops : ml.TensorOps T) (c : EncoderCache T) (ctx : ml.Context T)
    (key value : T) (cfg : ml.CacheConfig) (kb vb : T)
    (hcfg : c.config = some cfg) (h0 : 0 ≤ c.curLayer)
    (hk : c.keys[c.curLayer.toNat]? = some (some kb))
    (hv : c.values[c.curLayer.toNat]? = some (some vb)) :
    Put ops c ctx key value =
      .ok ({ c with encoderPos := c.curPos, encoderCached := true },
        ctx.Forward [ops.Copy ctx key (some kb),
          ops.Copy ctx (storedValue ops cfg ctx value) (some vb)]) := by
  simp [Put, deref, hcfg, index_eq_ok _ _ _ h0 hk, index_eq_ok _ _ _ h0 hv, bind, Except.bind,
    pure, Except.pure, storedValue]

/-- Method `Put` on an absent slot: two buffers are allocated from the cache
context and stored, then the two copies are scheduled. -/
theorem Put_absent {T : Type} (ops : ml.TensorOps T) (c : EncoderCache T) (ctx : ml.Context T)
    (key value : T) (cfg : ml.CacheConfig) (cc : ml.Context T) (ks vs : Option T)
    (hcfg : c.config = some cfg) (hctx : c.cacheCtx = some cc) (h0 : 0 ≤ c.curLayer)
    (hk : c.keys[c.curLayer.toNat]? = some ks)
    (hv : c.values[c.curLayer.toNat]? = some vs)
    (habs : ks = none ∨ vs = none) :
    Put ops c ctx key value =
      .ok ({ c with
              encoderPos := c.curPos, encoderCached := true,
              keys := c.keys.set c.curLayer.toNat (cc.Empty ops (ops.DType key) (ops.Shape key)).1,
              values := c.values.set c.curLayer.toNat
                ((cc.Empty ops (ops.DType key) (ops.Shape key)).2.Empty ops
                  (ops.DType (storedValue ops cfg ctx value))
                  (ops.Shape (storedValue ops cfg ctx value))).1,
              cacheCtx := some ((cc.Empty ops (ops.DType key) (ops.Shape key)).2.Empty ops
                  (ops.DType (storedValue ops cfg ctx value))
                  (ops.Shape (storedValue ops cfg ctx value))).2 },
        ctx.Forward [ops.Copy ctx key (cc.Empty ops (ops.DType key) (ops.Shape key)).1,
          ops.Copy ctx (storedValue ops cfg ctx value)
            ((cc.Empty ops (ops.DType key) (ops.Shape key)).2.Empty ops
                  (ops.DType (storedValue ops cfg ctx value))
                  (ops.Shape (storedValue ops cfg ctx value))).1]) := by
  have hkl : c.curLayer.toNat < c.keys.length := by
    rcases List.getElem?_eq_some_iff.mp hk with ⟨h, -⟩; exact h
  have hvl : c.curLayer.toNat < c.values.length := by
    rcases List.getElem?_eq_some_iff.mp hv with ⟨h, -⟩; exact h
  have hk2 := index_eq_ok _ _ _ h0 hk
  have hv2 := index_eq_ok _ _ _ h0 hv
  rcases habs with rfl | rfl
  · simp [Put, deref, hcfg, hk2, hv2, bind, Except.bind, hctx, assign_eq_ok _ _ _ h0 hkl,
      assign_eq_ok _ _ _ h0 hvl, index_eq_ok, h0, hkl, hvl, pure, Except.pure, storedValue,
      ml.Context.Empty]
  · cases ks <;>
    simp [Put, deref, hcfg, hk2, hv2, bind, Except.bind, hctx, assign_eq_ok _ _ _ h0 hkl,
      assign_eq_ok _ _ _ h0 hvl, index_eq_ok, h0, hkl, hvl, pure, Except.pure, storedValue,
      ml.Context.Empty]

/-- An `int` expression whose mathematical value is an `int` has that value. -/
theorem wrapInt_eq (x : Int) (h1 : minInt ≤ x) (h2 : x ≤ maxInt) : wrapInt x = x := by
  unfold wrapInt
  unfold minInt at h1
  unfold maxInt at h2
  omega

/-- One above the largest `int` wraps to a negative value: an `int` expression
of mathematical value at most `maxInt + 1` that is not negative did not wrap. -/
theorem wrapInt_nonneg_fits (x : Int) (h1 : minInt ≤ x) (h2 : x ≤ maxInt + 1)
    (h : 0 ≤ wrapInt x) : x ≤ maxInt := by
  unfold wrapInt at h
  unfold minInt at h1
  unfold maxInt at h2 ⊢
  omega

/-- The length of one new slot does not wrap. -/
theorem wrapInt_one : wrapInt 1 = 1 := by
  decide

/-- Method `SetLayer` below the store size only sets the current layer. -/
theorem SetLayer_keep {T : Type} (c : EncoderCache T) (layer : Int)
    (hlt : layer < c.keys.length) : SetLayer c layer = .ok { c with curLayer := layer } := by
  have : ¬ layer ≥ (c.keys.length : Int) := by omega
  simp [SetLayer, this, bind, Except.bind, pure, Except.pure]

/-- Method `SetLayer` at or beyond the store size appends absent slots up to
`layer`, when the number of new slots does not overflow `int`. -/
theorem SetLayer_grow {T : Type} (c : EncoderCache T) (layer : Int)
    (hlen : c.keys.length = c.values.length) (hge : (c.keys.length : Int) ≤ layer)
    (hfit : layer - c.keys.length + 1 ≤ maxInt) :
    SetLayer c layer =
      .ok { c with
              keys := c.keys ++ List.replicate (layer - c.keys.length + 1).toNat none,
              values := c.values ++ List.replicate (layer - c.keys.length + 1).toNat none,
              curLayer := layer } := by
  have hw : wrapInt (layer - (c.values.length : Int) + 1) =
      layer - (c.values.length : Int) + 1 :=
    wrapInt_eq _ (by unfold minInt; omega) (by omega)
  have h2 : ¬ (layer - (c.values.length : Int) + 1 < 0) := by omega
  have h3 : (c.values.length : Int) ≤ layer := by omega
  simp only [SetLayer, ge_iff_le, if_true, make, hw, h2, if_false, bind, Except.bind, pure,
    Except.pure, hlen, h3]

/-- A completed `SetLayer` either only sets the current layer, or appends nil
slots to both stores, as many as the two wrapped lengths say. -/
theorem SetLayer_ok_inv {T : Type} (c c2 : EncoderCache T) (layer : Int)
    (h : SetLayer c layer = .ok c2) :
    (layer < (c.keys.length : Int) ∧ c2 = { c with curLayer := layer }) ∨
    ((c.keys.length : Int) ≤ layer ∧
      0 ≤ wrapInt (layer - c.keys.length + 1) ∧ 0 ≤ wrapInt (layer - c.values.length + 1) ∧
      c2 = { c with
              keys := c.keys ++
                List.replicate (wrapInt (layer - c.keys.length + 1)).toNat none,
              values := c.values ++
                List.replicate (wrapInt (layer - c.values.length + 1)).toNat none,
              curLayer := layer }) := by
  by_cases hlt : layer < (c.keys.length : Int)
  · rw [SetLayer_keep c layer hlt] at h
    exact Or.inl ⟨hlt, (Except.ok.inj h).symm⟩
  · have hge : layer ≥ (c.keys.length : Int) := by omega
    by_cases h1 : wrapInt (layer - (c.keys.length : Int) + 1) < 0
    · simp [SetLayer, hge, make, h1, bind, Except.bind] at h
    · by_cases h2 : wrapInt (layer - (c.values.length : Int) + 1) < 0
      · simp [SetLayer, hge, make, h1, h2, bind, Except.bind, pure, Except.pure] at h
      · simp only [SetLayer, hge, if_true, make, h1, h2, if_false, bind, Except.bind, pure,
          Except.pure, Except.ok.injEq] at h
        exact Or.inr ⟨by omega, by omega, by omega, h.symm⟩

/-- A completed `SetLayer` with a layer that is an `int` did not overflow: the
number of new slots is an `int`. -/
theorem SetLayer_ok_fits {T : Type} (c c2 : EncoderCache T) (layer : Int)
    (hint : layer ≤ maxInt) (h : SetLayer c layer = .ok c2) :
    layer - c.keys.length + 1 ≤ maxInt := by
  rcases SetLayer_ok_inv c c2 layer h with ⟨hlt, -⟩ | ⟨hge, hk, -, -⟩
  · unfold maxInt
    omega
  · exact wrapInt_nonneg_fits _ (by unfold minInt; omega) (by omega) hk

/-- A `SetLayer` that panics panics in `make`. -/
theorem SetLayer_error {T : Type} (c : EncoderCache T) (layer : Int) (e : Panic)
    (h : SetLayer c layer = .error e) : e = .makeLenOutOfRange := by
  by_cases hlt : layer < (c.keys.length : Int)
  · rw [SetLayer_keep c layer hlt] at h
    exact Except.noConfusion h
  · have hge : layer ≥ (c.keys.length : Int) := by omega
    by_cases h1 : wrapInt (layer - (c.keys.length : Int) + 1) < 0
    · simp only [SetLayer, hge, if_true, make, h1, bind, Except.bind, Except.error.injEq] at h
      exact h.symm
    · by_cases h2 : wrapInt (layer - (c.values.length : Int) + 1) < 0
      · simp only [SetLayer, hge, if_true, make, h1, h2, if_false, bind, Except.bind,
          Except.error.injEq] at h
        exact h.symm
      · simp [SetLayer, hge, make, h1, h2, bind, Except.bind, pure, Except.pure] at h

/-- Method `SetLayer` with a non-negative layer, on a store whose two halves have
the same length and when the number of new slots does not overflow `int`,
completes; the current layer is then a valid index and the rest of the state
is kept. -/
theorem SetLayer_valid {T : Type} (c : EncoderCache T) (layer : Int)
    (hlen : c.keys.length = c.values.length) (h0 : 0 ≤ layer)
    (hfit : layer - c.keys.length + 1 ≤ maxInt) :
    ∃ c2, SetLayer c layer = .ok c2 ∧ ValidLayer c2 ∧ c2.curLayer = layer ∧
      c2.keys.length = c2.values.length ∧
      c2.config = c.config ∧ c2.cacheCtx = c.cacheCtx ∧ c2.curPos = c.curPos ∧
      c2.encoderCached = c.encoderCached ∧ c2.encoderPos = c.encoderPos := by
  by_cases hlt : layer < c.keys.length
  · refine ⟨_, SetLayer_keep c layer hlt, ⟨h0, hlt, ?_⟩, rfl, hlen, rfl, rfl, rfl, rfl, rfl⟩
    show layer < (c.values.length : Int)
    omega
  · have hge : (c.keys.length : Int) ≤ layer := by omega
    refine ⟨_, SetLayer_grow c layer hlen hge hfit, ⟨h0, ?_, ?_⟩, rfl, ?_, rfl, rfl, rfl, rfl,
      rfl⟩
    · simp only [List.length_append, List.length_replicate]; omega
    · simp only [List.length_append, List.length_replicate]; omega
    · simp only [List.length_append, List.length_replicate]; omega

/-- Method `Put` on a valid layer of an initialized cache completes; it sets the
cached flag, stamps the cached position with the current position and keeps
the current layer, the current position and the config. -/
theorem Put_valid {T : Type} (ops : ml.TensorOps T) (c : EncoderCache T) (ctx : ml.Context T)
    (key value : T) (hcfg : c.config.isSome = true) (hctx : c.cacheCtx.isSome = true)
    (hv : ValidLayer c) :
    ∃ c2 ctx2, Put ops c ctx key value = .ok (c2, ctx2) ∧ c2.encoderCached = true ∧
      c2.encoderPos = c.curPos ∧ c2.curPos = c.curPos ∧ c2.curLayer = c.curLayer ∧
      c2.config = c.config ∧ c2.keys.length = c.keys.length ∧
      c2.values.length = c.values.length ∧ c2.cacheCtx.isSome = true ∧
      (∀ l : Nat, l ≠ c.curLayer.toNat →
        c2.keys[l]? = c.keys[l]? ∧ c2.values[l]? = c.values[l]?) := by
  obtain ⟨cfg, hcfg2⟩ := Option.isSome_iff_exists.mp hcfg
  obtain ⟨cc, hctx2⟩ := Option.isSome_iff_exists.mp hctx
  obtain ⟨h0, hkl, hvl⟩ := hv
  have hkl2 : c.curLayer.toNat < c.keys.length := by omega
  have hvl2 : c.curLayer.toNat < c.values.length := by omega
  have hk : c.keys[c.curLayer.toNat]? = some c.keys[c.curLayer.toNat] :=
    List.getElem?_eq_getElem hkl2
  have hvv : c.values[c.curLayer.toNat]? = some c.values[c.curLayer.toNat] :=
    List.getElem?_eq_getElem hvl2
  cases hks : c.keys[c.curLayer.toNat] with
  | none =>
    rw [hks] at hk
    refine ⟨_, _, Put_absent ops c ctx key value cfg cc _ _ hcfg2 hctx2 h0 hk hvv (Or.inl rfl),
      rfl, rfl, rfl, rfl, rfl, ?_, ?_, rfl, ?_⟩
    · simp
    · simp
    · intro l hl
      constructor <;> simp [List.getElem?_set, Ne.symm hl]
  | some kb =>
    rw [hks] at hk
    cases hvs : c.values[c.curLayer.toNat] with
    | none =>
      rw [hvs] at hvv
      refine ⟨_, _, Put_absent ops c ctx key value cfg cc _ _ hcfg2 hctx2 h0 hk hvv (Or.inr rfl),
        rfl, rfl, rfl, rfl, rfl, ?_, ?_, rfl, ?_⟩
      · simp
      · simp
      · intro l hl
        constructor <;> simp [List.getElem?_set, Ne.symm hl]
    | some vb =>
      rw [hvs] at hvv
      refine ⟨_, _, Put_populated ops c ctx key value cfg kb vb hcfg2 h0 hk hvv,
        rfl, rfl, rfl, rfl, rfl, rfl, rfl, ?_, ?_⟩
      · simpa using hctx
      · intro l _
        exact ⟨rfl, rfl⟩

/-- Method `Get` on a valid layer returns the two stored slots and a nil mask. -/
theorem Get_eq {T : Type} (c : EncoderCache T) (ctx : ml.Context T) (k v : Option T)
    (h0 : 0 ≤ c.curLayer) (hk : c.keys[c.curLayer.toNat]? = some k)
    (hv : c.values[c.curLayer.toNat]? = some v) :
    Get c ctx = .ok ((k, v, none), c) := by
  simp [Get, index_eq_ok _ _ _ h0 hk, index_eq_ok _ _ _ h0 hv, bind, Except.bind, pure,
    Except.pure]

/-- The calls `SetLayer(layer)`, `Get(ctx)` for a layer inside the store return
the two slots stored at that layer. -/
theorem getAt_inside {T : Type} (c : EncoderCache T) (ctx : ml.Context T) (layer : Int)
    (k v : Option T) (h0 : 0 ≤ layer) (hk : c.keys[layer.toNat]? = some k)
    (hv : c.values[layer.toNat]? = some v) :
    getAt c ctx layer = .ok ((k, v, none), { c with curLayer := layer }) := by
  have hlt : layer.toNat < c.keys.length := by
    rcases List.getElem?_eq_some_iff.mp hk with ⟨h, -⟩; exact h
  have hlt2 : layer < (c.keys.length : Int) := by omega
  simp only [getAt, SetLayer_keep c layer hlt2, bind, Except.bind]
  exact Get_eq _ ctx k v h0 hk hv

/-- After `SetLayer(layer)` an absent slot is an index of the store that holds
a nil key or a nil value. -/
theorem SetLayer_absent {T : Type} (c : EncoderCache T) (layer : Int)
    (hlen : c.keys.length = c.values.length) (h0 : 0 ≤ layer)
    (hfit : layer - c.keys.length + 1 ≤ maxInt) (habs : SlotAbsent c layer.toNat) :
    ∃ c1 ks vs, SetLayer c layer = .ok c1 ∧ c1.curLayer = layer ∧ c1.config = c.config ∧
      c1.cacheCtx = c.cacheCtx ∧
      c1.keys[layer.toNat]? = some ks ∧ c1.values[layer.toNat]? = some vs ∧
      (ks = none ∨ vs = none) := by
  by_cases hlt : layer < c.keys.length
  · have hkl : layer.toNat < c.keys.length := by omega
    have hvl : layer.toNat < c.values.length := by omega
    refine ⟨_, c.keys[layer.toNat], c.values[layer.toNat], SetLayer_keep c layer hlt, rfl, rfl,
      rfl, List.getElem?_eq_getElem hkl, List.getElem?_eq_getElem hvl, ?_⟩
    unfold SlotAbsent at habs
    rw [List.getElem?_eq_getElem hkl, List.getElem?_eq_getElem hvl] at habs
    simpa using habs
  · have hge : (c.keys.length : Int) ≤ layer := by omega
    have hk : c.keys.length ≤ layer.toNat := by omega
    have hv : c.values.length ≤ layer.toNat := by omega
    have hr : layer.toNat - c.keys.length < (layer - c.keys.length + 1).toNat := by omega
    have hr2 : layer.toNat - c.values.length < (layer - c.keys.length + 1).toNat := by omega
    refine ⟨_, none, none, SetLayer_grow c layer hlen hge hfit, rfl, rfl, rfl, ?_, ?_,
      Or.inl rfl⟩
    · show (c.keys ++ List.replicate _ none)[layer.toNat]? = some none
      rw [List.getElem?_append_right hk, List.getElem?_replicate]
      simp [hr]
    · show (c.values ++ List.replicate _ none)[layer.toNat]? = some none
      rw [List.getElem?_append_right hv, List.getElem?_replicate]
      simp [hr2]

/-- Method `Init` in closed form: it resolves the effective config, panics when
its padding is neither 0 nor 1, and otherwise fixes that config and takes a
new context from the backend. -/
theorem Init_eq {T : Type} (c : EncoderCache T) (backend : ml.Backend T) (dtype : ml.DType)
    (capacity : Int) :
    Init c backend dtype capacity =
      if (effectiveConfig c backend).CachePadding ≠ 0 ∧
          (effectiveConfig c backend).CachePadding ≠ 1 then
        .error (.cachePadding (effectiveConfig c backend).CachePadding)
      else
        .ok { c with config := some (effectiveConfig c backend),
                     cacheCtx := some backend.NewContext } := by
  unfold Init effectiveConfig
  cases hc : c.config with
  | some injected => simp [hc]
  | none =>
    cases hb : backend.BackendCacheConfig with
    | some offered => simp
    | none => simp [ml.CacheConfig.zero]

/-! ## Invalidation -/

/-- C1: `Remove(seq, beginIndex, endIndex)` returns a nil error in every state;
afterwards `EncoderCached()` is false when `beginIndex <= encoderPos < endIndex`
and is its former value otherwise; the stored buffers, the cached position, the
current layer and position, the config and the cache context are unchanged;
the outcome does not depend on `seq`.  In the concrete scenario (padding 1,
`StartForward([5])`, `SetLayer(0)`, `Put`) the cache is cached at position 5,
stays cached after `Remove(0, 0, 5)` and is not cached after `Remove(0, 0, 6)`. -/
theorem Remove_spec {T : Type} (c : EncoderCache T) (seq beginIndex endIndex : Int) :
    (Remove c seq beginIndex endIndex).2 = none ∧
    EncoderCached (Remove c seq beginIndex endIndex).1 =
      (if beginIndex ≤ c.encoderPos ∧ c.encoderPos < endIndex then false else EncoderCached c) ∧
    (Remove c seq beginIndex endIndex).1.keys = c.keys ∧
    (Remove c seq beginIndex endIndex).1.values = c.values ∧
    (Remove c seq beginIndex endIndex).1.encoderPos = c.encoderPos ∧
    (Remove c seq beginIndex endIndex).1.curLayer = c.curLayer ∧
    (Remove c seq beginIndex endIndex).1.curPos = c.curPos ∧
    (Remove c seq beginIndex endIndex).1.config = c.config ∧
    (Remove c seq beginIndex endIndex).1.cacheCtx = c.cacheCtx ∧
    (∀ seq2 : Int, Remove c seq2 beginIndex endIndex = Remove c seq beginIndex endIndex) ∧
    (∀ (ops : ml.TensorOps T) (backend : ml.Backend T) (permutedV : Bool) (dtype : ml.DType)
        (capacity : Int) (ctx : ml.Context T) (seqs : List Int) (k0 v0 : T),
      ∃ c4 ctx4, scenario ops backend permutedV dtype capacity ctx seqs k0 v0 = .ok (c4, ctx4) ∧
        EncoderCached c4 = true ∧ c4.encoderPos = 5 ∧
        EncoderCached (Remove c4 0 0 5).1 = true ∧
        EncoderCached (Remove c4 0 0 6).1 = false) := by
  refine ⟨rfl, ?_, ?_, ?_, ?_, ?_, ?_, ?_, ?_, fun _ => rfl, ?_⟩
  · unfold Remove EncoderCached
    by_cases h : beginIndex ≤ c.encoderPos ∧ c.encoderPos < endIndex
    · simp [h]
    · simp only [ge_iff_le, h, if_false]
  all_goals first
    | (unfold Remove; dsimp only; split <;> rfl)
    | skip
  intro ops backend permutedV dtype capacity ctx seqs k0 v0
  simp [scenario, forwardPut, SetConfig, NewEncoderCache, Init, StartForward, SetLayer, Put, index, make, deref, assign, ml.Context.Empty, bind, Except.bind, pure, Except.pure, EncoderCached, Remove,
    wrapInt_one]

/-! ## Put -/

/-- Counterexample for C2: on the cache right after `Init` (an empty store),
`StartForward([5]); SetLayer(L); Put` with `L = maxInt >= 0` panics in `make`:
`L - 0 + 1` wraps to a negative length. -/
theorem forwardPut_maxInt_panics :
    Initialized freshCache ∧ (0 : Int) ≤ maxInt ∧ IsInt maxInt ∧
    maxInt = 9223372036854775807 ∧
    forwardPut bufferOps freshCache emptyContext [5] [0] maxInt sampleKey sampleValue =
      .error .makeLenOutOfRange :=
  ⟨by decide, by decide, by decide, rfl, rfl⟩

/-- C2, amended: on an initialized cache, whether or not something is cached
already, for every `int` layer `layer >= 0` for which the `SetLayer(layer)` of
the sequence completes, `StartForward(ctx, positions, seqs)` with first
position `p`, `SetLayer(layer)` and `Put(ctx, key, value)` all complete, and
afterwards `EncoderCached()` is true and the cached position is `p`. -/
theorem forwardPut_cached {T : Type} (ops : ml.TensorOps T) (c c1 : EncoderCache T)
    (ctx : ml.Context T) (p : Int) (rest seqs : List Int) (layer : Int) (key value : T)
    (hinit : Initialized c) (hlayer : 0 ≤ layer) (hint : layer ≤ maxInt)
    (hset : SetLayer { c with curPos := p } layer = .ok c1) :
    ∃ c2 ctx2, forwardPut ops c ctx (p :: rest) seqs layer key value = .ok (c2, ctx2) ∧
      EncoderCached c2 = true ∧ c2.encoderPos = p := by
  obtain ⟨hcfg, hctx, hlen⟩ := hinit
  obtain ⟨c3, hset3, hvalid, -, -, hcfg1, hctx1, hpos1, -, -⟩ :=
    SetLayer_valid { c with curPos := p } layer hlen hlayer
      (SetLayer_ok_fits { c with curPos := p } c1 layer hint hset)
  obtain ⟨c2, ctx2, hput, hcached, hpos2, -⟩ :=
    Put_valid ops c3 ctx key value (by rw [hcfg1]; exact hcfg) (by rw [hctx1]; exact hctx) hvalid
  refine ⟨c2, ctx2, ?_, hcached, ?_⟩
  · simp [forwardPut, StartForward, index, bind, Except.bind, pure, Except.pure, hset3, hput]
  · rw [hpos2, hpos1]

/-- Witness for C2: a pass starting at position 7 that puts at layer 3. -/
theorem forwardPut_cached_witness :
    Initialized sampleCache ∧ (0 : Int) ≤ 3 ∧ (3 : Int) ≤ maxInt ∧
    SetLayer { sampleCache with curPos := 7 } 3 =
      .ok { sampleCache with curPos := 7, curLayer := 3, keys := [none, none, none, none],
                             values := [none, none, none, none] } ∧
    ∃ c2 ctx2, forwardPut bufferOps sampleCache emptyContext (7 :: [8]) [0] 3 sampleKey sampleValue
        = .ok (c2, ctx2) ∧
      EncoderCached c2 = true ∧ c2.encoderPos = 7 :=
  ⟨by decide, by decide, by decide, rfl,
    forwardPut_cached bufferOps sampleCache _ emptyContext 7 [8] [0] 3 sampleKey sampleValue
      (by decide) (by decide) (by decide) rfl⟩

/-- C3: layer isolation.  On an initialized cache whose current layer is a valid
index, `Put(ctx, key, value)` completes and leaves the key buffer and the value
buffer of every other layer `other` inside the store unchanged, so that
`SetLayer(other); Get()` returns the same buffers after the `Put` as before. -/
theorem Put_layer_isolation {T : Type} (ops : ml.TensorOps T) (c : EncoderCache T)
    (ctx : ml.Context T) (key value : T) (other : Int)
    (hinit : Initialized c) (hvalid : ValidLayer c)
    (h0 : 0 ≤ other) (hin : other < c.keys.length) (hne : other ≠ c.curLayer) :
    ∃ c2 ctx2 kb vb, Put ops c ctx key value = .ok (c2, ctx2) ∧
      c.keys[other.toNat]? = some kb ∧ c.values[other.toNat]? = some vb ∧
      c2.keys[other.toNat]? = some kb ∧ c2.values[other.toNat]? = some vb ∧
      ∀ ctxG : ml.Context T,
        (getAt c ctxG other).map Prod.fst = .ok (kb, vb, none) ∧
        (getAt c2 ctxG other).map Prod.fst = .ok (kb, vb, none) := by
  obtain ⟨hcfg, hctx, hlen⟩ := hinit
  obtain ⟨c2, ctx2, hput, -, -, -, -, -, -, -, -, hframe⟩ :=
    Put_valid ops c ctx key value hcfg hctx hvalid
  have hne2 : other.toNat ≠ c.curLayer.toNat := by
    have := hvalid.1
    omega
  obtain ⟨hk2, hv2⟩ := hframe other.toNat hne2
  have hkl : other.toNat < c.keys.length := by omega
  have hvl : other.toNat < c.values.length := by omega
  have hk : c.keys[other.toNat]? = some c.keys[other.toNat] := List.getElem?_eq_getElem hkl
  have hv : c.values[other.toNat]? = some c.values[other.toNat] := List.getElem?_eq_getElem hvl
  refine ⟨c2, ctx2, _, _, hput, hk, hv, hk2.trans hk, hv2.trans hv, fun ctxG => ⟨?_, ?_⟩⟩
  · rw [getAt_inside c ctxG other _ _ h0 hk hv]; rfl
  · rw [getAt_inside c2 ctxG other _ _ h0 (hk2.trans hk) (hv2.trans hv)]; rfl

/-- Witness for C3: a put at layer 1 of a two-layer cache, read back at layer 0. -/
theorem Put_layer_isolation_witness :
    Initialized twoLayerCache ∧ ValidLayer twoLayerCache ∧
    ∃ c2 ctx2 kb vb, Put bufferOps twoLayerCache emptyContext sampleKey sampleValue = .ok (c2, ctx2) ∧
      twoLayerCache.keys[(0 : Int).toNat]? = some kb ∧
      twoLayerCache.values[(0 : Int).toNat]? = some vb ∧
      c2.keys[(0 : Int).toNat]? = some kb ∧ c2.values[(0 : Int).toNat]? = some vb ∧
      ∀ ctxG : ml.Context Buffer,
        (getAt twoLayerCache ctxG 0).map Prod.fst = .ok (kb, vb, none) ∧
        (getAt c2 ctxG 0).map Prod.fst = .ok (kb, vb, none) :=
  ⟨by decide, by decide,
    Put_layer_isolation bufferOps twoLayerCache emptyContext sampleKey sampleValue 0
      (by decide) (by decide) (by decide) (by decide) (by decide)⟩

/-- Counterexample for C4: on the cache right after `Init`, whose slot at
`L = maxInt >= 0` is absent, `SetLayer(L); Put; Get` panics in `make`:
`L - 0 + 1` wraps to a negative length. -/
theorem putGetAt_maxInt_panics :
    Initialized freshCache ∧ (0 : Int) ≤ maxInt ∧ IsInt maxInt ∧
    SlotAbsent freshCache maxInt.toNat ∧ EmptyFaithful bufferOps ∧
    putGetAt bufferOps freshCache emptyContext maxInt sampleKey sampleValue =
      .error .makeLenOutOfRange :=
  ⟨by decide, by decide, by decide, Or.inl rfl, fun _ _ _ => ⟨_, rfl, rfl, rfl⟩, rfl⟩

/-- C4, amended: on an initialized cache whose slot at the `int` layer
`layer >= 0` is absent, whenever `SetLayer(layer)` completes,
`Put(ctx, key, value)` completes and `Get()` then returns, at that layer, a
non-nil key buffer and a non-nil value buffer; given that `Empty` hands out a
buffer of the requested type and shape, the key buffer has the element type
and shape of `key`, and the value buffer those of `value` permuted by
`[1, 2, 0, 3]` when `PermutedV` is configured and those of `value` itself when
it is not. -/
theorem Put_absent_stores_shape {T : Type} (ops : ml.TensorOps T) (c c1 : EncoderCache T)
    (ctx : ml.Context T) (key value : T) (layer : Int) (cfg : ml.CacheConfig)
    (hinit : Initialized c) (hcfg : c.config = some cfg) (hlayer : 0 ≤ layer)
    (hint : layer ≤ maxInt) (habs : SlotAbsent c layer.toNat) (hempty : EmptyFaithful ops)
    (hset : SetLayer c layer = .ok c1) :
    ∃ c2 ctx2 kb vb, Put ops c1 ctx key value = .ok (c2, ctx2) ∧
      c2.curLayer = layer ∧
      (∀ ctxG : ml.Context T, Get c2 ctxG = .ok ((some kb, some vb, none), c2)) ∧
      ops.DType kb = ops.DType key ∧ ops.Shape kb = ops.Shape key ∧
      (cfg.PermutedV = true →
        ops.DType vb = ops.DType (ops.Permute ctx value [1, 2, 0, 3]) ∧
        ops.Shape vb = ops.Shape (ops.Permute ctx value [1, 2, 0, 3])) ∧
      (cfg.PermutedV = false →
        ops.DType vb = ops.DType value ∧ ops.Shape vb = ops.Shape value) := by
  obtain ⟨-, hctx, hlen⟩ := hinit
  obtain ⟨cc, hcc⟩ := Option.isSome_iff_exists.mp hctx
  obtain ⟨c3, ks, vs, hset3, hcur, hcfg1, hctx1, hk, hv, hnil⟩ :=
    SetLayer_absent c layer hlen hlayer (SetLayer_ok_fits c c1 layer hint hset) habs
  have hc3 : c3 = c1 := Except.ok.inj (hset3.symm.trans hset)
  subst hc3
  have h0 : 0 ≤ c3.curLayer := by rw [hcur]; exact hlayer
  rw [← hcur] at hk hv
  have hkl : c3.curLayer.toNat < c3.keys.length := by
    rcases List.getElem?_eq_some_iff.mp hk with ⟨h, -⟩; exact h
  have hvl : c3.curLayer.toNat < c3.values.length := by
    rcases List.getElem?_eq_some_iff.mp hv with ⟨h, -⟩; exact h
  have hput := Put_absent ops c3 ctx key value cfg cc ks vs (hcfg1.trans hcfg) (hctx1.trans hcc)
    h0 hk hv hnil
  obtain ⟨kb, hkb, hkd, hksh⟩ := hempty cc (ops.DType key) (ops.Shape key)
  obtain ⟨vb, hvb, hvd, hvsh⟩ := hempty (cc.Empty ops (ops.DType key) (ops.Shape key)).2
    (ops.DType (storedValue ops cfg ctx value)) (ops.Shape (storedValue ops cfg ctx value))
  refine ⟨_, _, kb, vb, hput, hcur, fun ctxG => ?_, hkd, hksh, ?_, ?_⟩
  · refine Get_eq _ ctxG _ _ (by exact h0) ?_ ?_
    · show (c3.keys.set c3.curLayer.toNat _)[c3.curLayer.toNat]? = some (some kb)
      rw [List.getElem?_set_self hkl]
      exact congrArg some hkb
    · show (c3.values.set c3.curLayer.toNat _)[c3.curLayer.toNat]? = some (some vb)
      rw [List.getElem?_set_self hvl]
      exact congrArg some hvb
  · intro hp
    have : storedValue ops cfg ctx value = ops.Permute ctx value [1, 2, 0, 3] := by
      simp [storedValue, hp]
    rw [this] at hvd hvsh
    exact ⟨hvd, hvsh⟩
  · intro hp
    have : storedValue ops cfg ctx value = value := by
      simp [storedValue, hp]
    rw [this] at hvd hvsh
    exact ⟨hvd, hvsh⟩

/-- Witness for C4: a put at layer 2, beyond the store, with permuted values. -/
theorem Put_absent_stores_shape_witness :
    Initialized permutedCache ∧ permutedCache.config = some ⟨1, true⟩ ∧ (0 : Int) ≤ 2 ∧
    (2 : Int) ≤ maxInt ∧ SlotAbsent permutedCache (2 : Int).toNat ∧ EmptyFaithful bufferOps ∧
    SetLayer permutedCache 2 =
      .ok { permutedCache with curLayer := 2, keys := [none, none, none],
                               values := [none, none, none] } ∧
    ∃ c2 ctx2 kb vb,
      Put bufferOps { permutedCache with curLayer := 2, keys := [none, none, none],
                                         values := [none, none, none] }
        emptyContext sampleKey sampleValue = .ok (c2, ctx2) ∧
      c2.curLayer = 2 ∧
      (∀ ctxG : ml.Context Buffer, Get c2 ctxG = .ok ((some kb, some vb, none), c2)) ∧
      bufferOps.DType kb = bufferOps.DType sampleKey ∧
      bufferOps.Shape kb = bufferOps.Shape sampleKey ∧
      ((⟨1, true⟩ : ml.CacheConfig).PermutedV = true →
        bufferOps.DType vb = bufferOps.DType (bufferOps.Permute emptyContext sampleValue [1, 2, 0, 3]) ∧
        bufferOps.Shape vb = bufferOps.Shape (bufferOps.Permute emptyContext sampleValue [1, 2, 0, 3])) ∧
      ((⟨1, true⟩ : ml.CacheConfig).PermutedV = false →
        bufferOps.DType vb = bufferOps.DType sampleValue ∧
        bufferOps.Shape vb = bufferOps.Shape sampleValue) :=
  ⟨by decide, rfl, by decide, by decide, Or.inl rfl, fun _ _ _ => ⟨_, rfl, rfl, rfl⟩, rfl,
    Put_absent_stores_shape bufferOps permutedCache _ emptyContext sampleKey sampleValue 2
      ⟨1, true⟩ (by decide) rfl (by decide) (by decide) (Or.inl rfl)
      (fun _ _ _ => ⟨_, rfl, rfl, rfl⟩) rfl⟩

/-! ## Config resolution -/

/-- C5: with `c` the padding of the effective config (the injected config if one
was set, else the backend's if it offers one, else the zero value), `Init`
completes exactly when `c` is 0 or 1, and panics with the padding error
exactly when `c` is any other value. -/
theorem Init_succeeds_iff_padding {T : Type} (c : EncoderCache T) (backend : ml.Backend T)
    (dtype : ml.DType) (capacity : Int) :
    ((∃ c2, Init c backend dtype capacity = .ok c2) ↔
      ((effectiveConfig c backend).CachePadding = 0 ∨
        (effectiveConfig c backend).CachePadding = 1)) ∧
    (Init c backend dtype capacity =
        .error (.cachePadding (effectiveConfig c backend).CachePadding) ↔
      ¬ ((effectiveConfig c backend).CachePadding = 0 ∨
        (effectiveConfig c backend).CachePadding = 1)) := by
  rw [Init_eq]
  by_cases h : (effectiveConfig c backend).CachePadding = 0 ∨
      (effectiveConfig c backend).CachePadding = 1
  · have h2 : ¬ ((effectiveConfig c backend).CachePadding ≠ 0 ∧
        (effectiveConfig c backend).CachePadding ≠ 1) := by
      rcases h with h | h <;> simp [h]
    simp [h2, h]
  · have h2 : (effectiveConfig c backend).CachePadding ≠ 0 ∧
        (effectiveConfig c backend).CachePadding ≠ 1 := by
      constructor <;> intro h3 <;> exact h (by simp [h3])
    simp [h2, h]

/-- C6: `SetConfig(config)` panics if and only if a config is already fixed on the
cache; otherwise it completes and fixes exactly `config`, changing no other
field.  In particular a `SetConfig` after a successful `SetConfig`, and a
`SetConfig` after a successful `Init`, panic. -/
theorem SetConfig_spec {T : Type} (c : EncoderCache T) (config : ml.CacheConfig) :
    (SetConfig c config = .error .configChanged ↔ c.config ≠ none) ∧
    ((∃ c2, SetConfig c config = .ok c2) ↔ c.config = none) ∧
    (SetConfig c config =
      if c.config.isSome then .error .configChanged else .ok { c with config := some config }) ∧
    (∀ (c2 : EncoderCache T) (config2 : ml.CacheConfig),
      SetConfig c config = .ok c2 → SetConfig c2 config2 = .error .configChanged) ∧
    (∀ (backend : ml.Backend T) (dtype : ml.DType) (capacity : Int) (c2 : EncoderCache T),
      Init c backend dtype capacity = .ok c2 → SetConfig c2 config = .error .configChanged) := by
  refine ⟨?_, ?_, ?_, ?_, ?_⟩
  · cases hc : c.config <;> simp [SetConfig, hc]
  · cases hc : c.config <;> simp [SetConfig, hc]
  · cases hc : c.config <;> simp [SetConfig, hc]
  · intro c2 config2 h
    cases hc : c.config with
    | some _ => simp [SetConfig, hc] at h
    | none =>
      simp only [SetConfig, hc, Except.ok.injEq] at h
      subst h
      rfl
  · intro backend dtype capacity c2 h
    rw [Init_eq] at h
    split at h
    · simp at h
    · simp only [Except.ok.injEq] at h
      subst h
      rfl

/-- Witness for C6: a second `SetConfig` and a `SetConfig` after `Init` both panic. -/
theorem SetConfig_spec_witness :
    SetConfig (NewEncoderCache : EncoderCache Buffer) ⟨1, true⟩ =
      .ok { (NewEncoderCache : EncoderCache Buffer) with config := some ⟨1, true⟩ } ∧
    SetConfig { (NewEncoderCache : EncoderCache Buffer) with config := some ⟨1, true⟩ } ⟨0, false⟩ =
      .error .configChanged ∧
    SetConfig { (NewEncoderCache : EncoderCache Buffer) with
        config := some ⟨0, false⟩, cacheCtx := some emptyContext } ⟨1, true⟩ =
      .error .configChanged :=
  ⟨rfl,
    (SetConfig_spec (NewEncoderCache : EncoderCache Buffer) ⟨1, true⟩).2.2.2.1 _ ⟨0, false⟩ rfl,
    (SetConfig_spec (NewEncoderCache : EncoderCache Buffer) ⟨1, true⟩).2.2.2.2 plainBackend 0 0 _
      rfl⟩

/-- C7: after a successful `Init(backend, dtype, capacity)` the config of the cache
is the effective config: the config fixed before the call when there is one
(for instance by `SetConfig`), in which case the backend's offer plays no part
in the result; else the backend's `CacheConfig()` when it offers one; else the
zero-value config.  The resulting state is the same for every `dtype` and
`capacity`. -/
theorem Init_config {T : Type} (c : EncoderCache T) (backend : ml.Backend T) (dtype : ml.DType)
    (capacity : Int) (c2 : EncoderCache T) (hinit : Init c backend dtype capacity = .ok c2) :
    c2.config = some (effectiveConfig c backend) ∧
    (∀ injected : ml.CacheConfig, c.config = some injected →
      c2.config = some injected ∧
      ∀ backend2 : ml.Backend T, backend2.NewContext = backend.NewContext →
        Init c backend2 dtype capacity = .ok c2) ∧
    (∀ (c0 : EncoderCache T) (injected : ml.CacheConfig),
      SetConfig c0 injected = .ok c → c2.config = some injected) ∧
    (∀ offered : ml.CacheConfig, c.config = none → backend.BackendCacheConfig = some offered →
      c2.config = some offered) ∧
    (c.config = none → backend.BackendCacheConfig = none →
      c2.config = some { CachePadding := 0, PermutedV := false }) ∧
    (∀ (dtype2 : ml.DType) (capacity2 : Int), Init c backend dtype2 capacity2 = .ok c2) := by
  have hcfg : c2.config = some (effectiveConfig c backend) := by
    rw [Init_eq] at hinit
    split at hinit
    · simp at hinit
    · simp only [Except.ok.injEq] at hinit
      subst hinit
      rfl
  refine ⟨hcfg, ?_, ?_, ?_, ?_, ?_⟩
  · intro injected hc
    have he : ∀ b : ml.Backend T, effectiveConfig c b = injected := by
      intro b; simp [effectiveConfig, hc]
    refine ⟨by rw [hcfg, he], fun backend2 hnew => ?_⟩
    rw [Init_eq] at hinit ⊢
    rw [he, hnew]
    rw [he] at hinit
    exact hinit
  · intro c0 injected hset
    have hc : c.config = some injected := by
      cases h0 : c0.config with
      | some _ => simp [SetConfig, h0] at hset
      | none =>
        simp only [SetConfig, h0, Except.ok.injEq] at hset
        subst hset
        rfl
    rw [hcfg]; simp [effectiveConfig, hc]
  · intro offered hc hb
    rw [hcfg]; simp [effectiveConfig, hc, hb]
  · intro hc hb
    rw [hcfg]; simp [effectiveConfig, hc, hb]
  · intro dtype2 capacity2
    rw [Init_eq] at hinit ⊢
    exact hinit

/-- Witness for C7: `Init` on a new cache with a backend that offers a config. -/
theorem Init_config_witness :
    Init (NewEncoderCache : EncoderCache Buffer) permutingBackend 3 64 =
      .ok { (NewEncoderCache : EncoderCache Buffer) with
              config := some ⟨1, true⟩, cacheCtx := some emptyContext } ∧
    ({ (NewEncoderCache : EncoderCache Buffer) with
        config := some ⟨1, true⟩, cacheCtx := some emptyContext }).config =
      some (effectiveConfig (NewEncoderCache : EncoderCache Buffer) permutingBackend) :=
  ⟨rfl, (Init_config (NewEncoderCache : EncoderCache Buffer) permutingBackend 3 64 _ rfl).1⟩

/-! ## Unsupported operation -/

/-- C8: `CopyPrefix` panics with the multiple-sequences error in every state and
for every `srcSeq`, `dstSeq` and `len`; it never returns normally. -/
theorem CopyPrefix_fails {T : Type} (c : EncoderCache T) (srcSeq dstSeq len : Int) :
    CopyPrefix c srcSeq dstSeq len = .error .multipleSequences ∧
    ∀ c2 : EncoderCache T, CopyPrefix c srcSeq dstSeq len ≠ .ok c2 := by
  refine ⟨rfl, fun c2 h => ?_⟩
  simp [CopyPrefix] at h

/-! ## Addressing -/

/-- Counterexample for C9: on the empty store of a new cache (size 0),
`SetLayer(L)` with `L = maxInt >= 0` panics in `make`: `L - 0 + 1` wraps to a
negative length, so the store does not get size `L + 1`. -/
theorem SetLayer_maxInt_panics :
    ((NewEncoderCache : EncoderCache Buffer).keys.length : Int) ≤ maxInt ∧ IsInt maxInt ∧
    maxInt = 9223372036854775807 ∧ wrapInt (maxInt - 0 + 1) = minInt ∧
    SetLayer (NewEncoderCache : EncoderCache Buffer) maxInt = .error .makeLenOutOfRange :=
  ⟨by decide, by decide, rfl, by decide, rfl⟩

/-- C9, amended: on a store of size `n` (keys and values alike), for every `int`
layer `layer >= n`, whenever `SetLayer(layer)` completes the store has size
`layer + 1`, its slots below `n` are those of before and its slots from `n` to
`layer` are absent; the current layer is `layer`, `Get()` returns a nil key, a
nil value and a nil mask, and no other field changes.  With `layer < n` (in
particular `0 <= layer < n`) `SetLayer` completes and only sets the current
layer.  When `layer - n + 1` overflows `int` `SetLayer` panics, and it never
panics but in `make`. -/
theorem SetLayer_spec {T : Type} (c : EncoderCache T) (layer : Int)
    (hlen : c.keys.length = c.values.length) :
    ((c.keys.length : Int) ≤ layer → layer ≤ maxInt →
      ∀ c2, SetLayer c layer = .ok c2 →
        (c2.keys.length : Int) = layer + 1 ∧ (c2.values.length : Int) = layer + 1 ∧
        (∀ i : Nat, i < c.keys.length →
          c2.keys[i]? = c.keys[i]? ∧ c2.values[i]? = c.values[i]?) ∧
        (∀ i : Nat, c.keys.length ≤ i → (i : Int) ≤ layer →
          c2.keys[i]? = some none ∧ c2.values[i]? = some none) ∧
        c2.curLayer = layer ∧
        (∀ ctx : ml.Context T, Get c2 ctx = .ok ((none, none, none), c2)) ∧
        c2.config = c.config ∧ c2.cacheCtx = c.cacheCtx ∧ c2.curPos = c.curPos ∧
        c2.encoderCached = c.encoderCached ∧ c2.encoderPos = c.encoderPos) ∧
    (layer < (c.keys.length : Int) → SetLayer c layer = .ok { c with curLayer := layer }) ∧
    ((c.keys.length : Int) ≤ layer → layer ≤ maxInt → maxInt < layer - c.keys.length + 1 →
      SetLayer c layer = .error .makeLenOutOfRange) ∧
    (∀ e : Panic, SetLayer c layer = .error e → e = .makeLenOutOfRange) := by
  refine ⟨fun hge hint c2 hset => ?_, fun hlt => SetLayer_keep c layer hlt,
    fun hge hint hover => ?_, fun e he => SetLayer_error c layer e he⟩
  · have hfit := SetLayer_ok_fits c c2 layer hint hset
    rw [SetLayer_grow c layer hlen hge hfit] at hset
    have hc2 := (Except.ok.inj hset).symm
    subst hc2
    have h0 : 0 ≤ layer := by omega
    have hnew : ∀ i : Nat, c.keys.length ≤ i → (i : Int) ≤ layer →
        (c.keys ++ List.replicate (layer - c.keys.length + 1).toNat (none : Option T))[i]? =
          some none ∧
        (c.values ++ List.replicate (layer - c.keys.length + 1).toNat (none : Option T))[i]? =
          some none := by
      intro i hi hil
      have hv : c.values.length ≤ i := by omega
      have hr : i - c.keys.length < (layer - c.keys.length + 1).toNat := by omega
      have hr2 : i - c.values.length < (layer - c.keys.length + 1).toNat := by omega
      constructor
      · rw [List.getElem?_append_right hi, List.getElem?_replicate]; simp [hr]
      · rw [List.getElem?_append_right hv, List.getElem?_replicate]; simp [hr2]
    refine ⟨?_, ?_, ?_, hnew, rfl, fun ctx => ?_, rfl, rfl, rfl, rfl, rfl⟩
    · simp only [List.length_append, List.length_replicate]; omega
    · simp only [List.length_append, List.length_replicate]; omega
    · intro i hi
      have hiv : i < c.values.length := by omega
      exact ⟨List.getElem?_append_left hi, List.getElem?_append_left hiv⟩
    · have hl := hnew layer.toNat (by omega) (by omega)
      exact Get_eq _ ctx none none (by exact h0) hl.1 hl.2
  · have hge2 : layer ≥ (c.keys.length : Int) := hge
    have hneg : wrapInt (layer - (c.keys.length : Int) + 1) < 0 := by
      unfold wrapInt
      unfold maxInt at hint hover
      omega
    simp [SetLayer, hge2, make, hneg, bind, Except.bind]

/-- Witness for C9: `SetLayer(4)` on a two-layer cache. -/
theorem SetLayer_spec_witness :
    twoLayerCache.keys.length = twoLayerCache.values.length ∧
    (twoLayerCache.keys.length : Int) ≤ 4 ∧ (4 : Int) ≤ maxInt ∧
    SetLayer twoLayerCache 4 =
      .ok { twoLayerCache with curLayer := 4,
                               keys := [some sampleKey, none, none, none, none],
                               values := [some sampleValue, none, none, none, none] } ∧
    (({ twoLayerCache with curLayer := 4,
                           keys := [some sampleKey, none, none, none, none],
                           values := [some sampleValue, none, none, none, none] } :
        EncoderCache Buffer).keys.length : Int) = 4 + 1 :=
  ⟨by decide, by decide, by decide, rfl,
    ((SetLayer_spec twoLayerCache 4 (by decide)).1 (by decide) (by decide) _ rfl).1⟩

/-- C10: when the current layer is a valid index, `Get()` completes and returns
exactly the key slot and the value slot stored at the current layer (nil ones
when the slot is absent); whenever `Get()` returns, in any state, its mask is
nil and the cache state is the one before the call. -/
theorem Get_spec {T : Type} (c : EncoderCache T) (ctx : ml.Context T) (hvalid : ValidLayer c) :
    (∃ k v, c.keys[c.curLayer.toNat]? = some k ∧ c.values[c.curLayer.toNat]? = some v ∧
      Get c ctx = .ok ((k, v, none), c)) ∧
    (∀ (d : EncoderCache T) (ctx2 : ml.Context T) (k v mask : Option T) (d2 : EncoderCache T),
      Get d ctx2 = .ok ((k, v, mask), d2) → mask = none ∧ d2 = d) := by
  obtain ⟨h0, hkl, hvl⟩ := hvalid
  have hkl2 : c.curLayer.toNat < c.keys.length := by omega
  have hvl2 : c.curLayer.toNat < c.values.length := by omega
  refine ⟨⟨_, _, List.getElem?_eq_getElem hkl2, List.getElem?_eq_getElem hvl2,
    Get_eq c ctx _ _ h0 (List.getElem?_eq_getElem hkl2) (List.getElem?_eq_getElem hvl2)⟩, ?_⟩
  intro d ctx2 k v mask d2 h
  unfold Get at h
  cases hk : index d.keys d.curLayer with
  | error e => simp [hk, bind, Except.bind] at h
  | ok k2 =>
    cases hv : index d.values d.curLayer with
    | error e => simp [hk, hv, bind, Except.bind] at h
    | ok v2 =>
      simp only [hk, hv, bind, Except.bind, pure, Except.pure, Except.ok.injEq, Prod.mk.injEq] at h
      exact ⟨h.1.2.2.symm, h.2.symm⟩

/-- Witness for C10: a two-layer cache read at its current layer 1. -/
theorem Get_spec_witness :
    ValidLayer twoLayerCache ∧
    ((∃ k v, twoLayerCache.keys[twoLayerCache.curLayer.toNat]? = some k ∧
        twoLayerCache.values[twoLayerCache.curLayer.toNat]? = some v ∧
        Get twoLayerCache emptyContext = .ok ((k, v, none), twoLayerCache)) ∧
      (∀ (d : EncoderCache Buffer) (ctx2 : ml.Context Buffer) (k v mask : Option Buffer)
          (d2 : EncoderCache Buffer),
        Get d ctx2 = .ok ((k, v, mask), d2) → mask = none ∧ d2 = d)) :=
  ⟨by decide, Get_spec twoLayerCache emptyContext (by decide)⟩

/-! ## Completed calls and sequences of calls -/

/-- A slice read that returns is a read inside the bounds. -/
theorem index_ok_inv {α : Type} (xs : List α) (i : Int) (x : α) (h : index xs i = .ok x) :
    0 ≤ i ∧ xs[i.toNat]? = some x := by
  unfold index at h
  by_cases hneg : i < 0
  · simp [hneg] at h
  · cases hx : xs[i.toNat]? with
    | none => simp [hneg, hx] at h
    | some y =>
      simp only [hneg, hx, if_false, Except.ok.injEq] at h
      exact ⟨by omega, by rw [h]⟩

/-- A completed `SetLayer` call passed an `int` to `SetLayer`, which completed. -/
theorem call_setLayer_inv {T : Type} (ops : ml.TensorOps T) (c c2 : EncoderCache T)
    (layer : Int) (h : call ops c (.setLayer layer) = .ok c2) :
    IsInt layer ∧ SetLayer c layer = .ok c2 := by
  by_cases hi : IsInt layer
  · simp only [call, hi, if_true] at h
    exact ⟨hi, h⟩
  · simp [call, hi] at h

/-- A completed `Put` found a config and a valid current layer, and either left
a populated slot as it was or filled an absent slot from the cache context. -/
theorem Put_ok_inv {T : Type} (ops : ml.TensorOps T) (c : EncoderCache T) (ctx : ml.Context T)
    (key value : T) (c2 : EncoderCache T) (ctx2 : ml.Context T)
    (h : Put ops c ctx key value = .ok (c2, ctx2)) :
    ∃ cfg ks vs, c.config = some cfg ∧ 0 ≤ c.curLayer ∧
      c.keys[c.curLayer.toNat]? = some ks ∧ c.values[c.curLayer.toNat]? = some vs ∧
      ((∃ kb vb, ks = some kb ∧ vs = some vb ∧
          c2 = { c with encoderPos := c.curPos, encoderCached := true }) ∨
        ((ks = none ∨ vs = none) ∧ ∃ cc, c.cacheCtx = some cc ∧
          c2 = { c with
              encoderPos := c.curPos, encoderCached := true,
              keys := c.keys.set c.curLayer.toNat (cc.Empty ops (ops.DType key) (ops.Shape key)).1,
              values := c.values.set c.curLayer.toNat
                ((cc.Empty ops (ops.DType key) (ops.Shape key)).2.Empty ops
                  (ops.DType (storedValue ops cfg ctx value))
                  (ops.Shape (storedValue ops cfg ctx value))).1,
              cacheCtx := some ((cc.Empty ops (ops.DType key) (ops.Shape key)).2.Empty ops
                  (ops.DType (storedValue ops cfg ctx value))
                  (ops.Shape (storedValue ops cfg ctx value))).2 })) := by
  rcases Option.eq_none_or_eq_some c.config with hcfg | ⟨cfg, hcfg⟩
  · simp [Put, deref, hcfg, bind, Except.bind] at h
  · by_cases hneg : c.curLayer < 0
    · simp [Put, deref, hcfg, index, hneg, bind, Except.bind] at h
    · have h0 : 0 ≤ c.curLayer := by omega
      cases hk : c.keys[c.curLayer.toNat]? with
      | none => simp [Put, deref, hcfg, index, hneg, hk, bind, Except.bind] at h
      | some ks =>
        have hkl : c.curLayer.toNat < c.keys.length := by
          rcases List.getElem?_eq_some_iff.mp hk with ⟨hl, -⟩; exact hl
        cases hv : c.values[c.curLayer.toNat]? with
        | none =>
          have hvl : ¬ c.curLayer.toNat < c.values.length := by
            intro hlt
            rw [List.getElem?_eq_getElem hlt] at hv
            exact Option.noConfusion hv
          cases ks with
          | some kb =>
            simp [Put, deref, hcfg, index, hneg, hk, hv, bind, Except.bind] at h
          | none =>
            cases hctx : c.cacheCtx with
            | none =>
              simp [Put, deref, hcfg, index, hneg, hk, hctx, bind, Except.bind, pure,
                Except.pure] at h
            | some cc =>
              simp [Put, deref, hcfg, index, hneg, hk, hctx, bind, Except.bind, pure,
                Except.pure, assign, hkl, hvl, ml.Context.Empty] at h
        | some vs =>
          refine ⟨cfg, ks, vs, hcfg, h0, rfl, rfl, ?_⟩
          by_cases habs : ks = none ∨ vs = none
          · rcases Option.eq_none_or_eq_some c.cacheCtx with hctx | ⟨cc, hctx⟩
            · rcases habs with rfl | rfl
              · simp [Put, deref, hcfg, index, hneg, hk, hctx, bind, Except.bind, pure,
                  Except.pure] at h
              · cases ks <;>
                simp [Put, deref, hcfg, index, hneg, hk, hv, hctx, bind, Except.bind, pure,
                  Except.pure] at h
            · rw [Put_absent ops c ctx key value cfg cc ks vs hcfg hctx h0 hk hv habs] at h
              exact Or.inr ⟨habs, cc, hctx, (Prod.mk.inj (Except.ok.inj h)).1.symm⟩
          · cases ks with
            | none => exact absurd (Or.inl rfl) habs
            | some kb =>
              cases vs with
              | none => exact absurd (Or.inr rfl) habs
              | some vb =>
                rw [Put_populated ops c ctx key value cfg kb vb hcfg h0 hk hv] at h
                exact Or.inl ⟨kb, vb, rfl, rfl, (Prod.mk.inj (Except.ok.inj h)).1.symm⟩

/-- A completed `Init` fixed the effective config, whose padding is 0 or 1, and
took a new context; it changed no other field. -/
theorem Init_ok_inv {T : Type} (c c2 : EncoderCache T) (backend : ml.Backend T)
    (dtype : ml.DType) (capacity : Int) (h : Init c backend dtype capacity = .ok c2) :
    ((effectiveConfig c backend).CachePadding = 0 ∨
      (effectiveConfig c backend).CachePadding = 1) ∧
    c2 = { c with config := some (effectiveConfig c backend),
                  cacheCtx := some backend.NewContext } := by
  rw [Init_eq] at h
  split at h
  · exact Except.noConfusion h
  · rename_i hpad
    refine ⟨?_, (Except.ok.inj h).symm⟩
    by_cases h0 : (effectiveConfig c backend).CachePadding = 0
    · exact Or.inl h0
    · by_cases h1 : (effectiveConfig c backend).CachePadding = 1
      · exact Or.inr h1
      · exact absurd ⟨h0, h1⟩ hpad

/-- A completed `SetConfig` found no config and fixed the given one. -/
theorem SetConfig_ok_inv {T : Type} (c c2 : EncoderCache T) (config : ml.CacheConfig)
    (h : SetConfig c config = .ok c2) :
    c.config = none ∧ c2 = { c with config := some config } := by
  rcases Option.eq_none_or_eq_some c.config with hc | ⟨cfg, hc⟩
  · simp only [SetConfig, hc, Except.ok.injEq] at h
    exact ⟨hc, h.symm⟩
  · simp [SetConfig, hc] at h

/-- A completed `Close` closed the cache context and changed no other field. -/
theorem Close_ok_inv {T : Type} (c c2 : EncoderCache T) (h : Close c = .ok c2) :
    ∃ cc, c.cacheCtx = some cc ∧ c2 = { c with cacheCtx := some cc.Close } := by
  rcases Option.eq_none_or_eq_some c.cacheCtx with hc | ⟨cc, hc⟩
  · simp [Close, hc] at h
  · simp only [Close, hc, Except.ok.injEq] at h
    exact ⟨cc, hc, h.symm⟩

/-- A completed `StartForward` was given a first position and recorded it. -/
theorem StartForward_ok_inv {T : Type} (c c2 : EncoderCache T) (ctx : ml.Context T)
    (positions seqs : List Int) (err : Option GoError)
    (h : StartForward c ctx positions seqs = .ok (c2, err)) :
    ∃ p rest, positions = p :: rest ∧ c2 = { c with curPos := p } ∧ err = none := by
  cases positions with
  | nil => simp [StartForward, index, bind, Except.bind] at h
  | cons p rest =>
    simp only [StartForward, index, bind, Except.bind, pure, Except.pure] at h
    simp only [Int.toNat_zero, List.getElem?_cons_zero, Int.lt_irrefl, if_false,
      Except.ok.injEq, Prod.mk.injEq] at h
    exact ⟨p, rest, rfl, h.1.symm, h.2.symm⟩

/-- A completed `Get` read inside the bounds and left the state as it was. -/
theorem Get_ok_inv {T : Type} (c c2 : EncoderCache T) (ctx : ml.Context T)
    (k v mask : Option T) (h : Get c ctx = .ok ((k, v, mask), c2)) :
    0 ≤ c.curLayer ∧ c.keys[c.curLayer.toNat]? = some k ∧
      c.values[c.curLayer.toNat]? = some v ∧ mask = none ∧ c2 = c := by
  unfold Get at h
  cases hk : index c.keys c.curLayer with
  | error e => simp [hk, bind, Except.bind] at h
  | ok k2 =>
    cases hv : index c.values c.curLayer with
    | error e => simp [hk, hv, bind, Except.bind] at h
    | ok v2 =>
      simp only [hk, hv, bind, Except.bind, pure, Except.pure, Except.ok.injEq,
        Prod.mk.injEq] at h
      obtain ⟨⟨rfl, rfl, rfl⟩, rfl⟩ := h
      obtain ⟨h0, hk3⟩ := index_ok_inv _ _ _ hk
      obtain ⟨-, hv3⟩ := index_ok_inv _ _ _ hv
      exact ⟨h0, hk3, hv3, rfl, rfl⟩

/-- What a completed call did to the two stores and the current layer: nothing
(or `SetLayer` inside the store), or `SetLayer` appended nil slots, or `Put`
filled the absent slot of the current layer with two buffers from `Empty`. -/
theorem call_store {T : Type} (ops : ml.TensorOps T) (c c2 : EncoderCache T) (op : Call T)
    (h : call ops c op = .ok c2) :
    (c2.keys = c.keys ∧ c2.values = c.values ∧
      (c2.curLayer = c.curLayer ∨
        ∃ layer, op = .setLayer layer ∧ c2.curLayer = layer ∧ layer < (c.keys.length : Int))) ∨
    (∃ (layer : Int) (nk nv : Nat), op = .setLayer layer ∧ c2.curLayer = layer ∧
      (c.keys.length : Int) ≤ layer ∧
      c2.keys = c.keys ++ List.replicate nk none ∧
      c2.values = c.values ++ List.replicate nv none ∧
      (c.keys.length = c.values.length → nk = nv)) ∨
    (∃ (ctx : ml.Context T) (key value : T) (ks vs kbuf vbuf : Option T) (cc cc2 : ml.Context T)
        (dtype dtype2 : ml.DType) (shape shape2 : List Int),
      op = .put ctx key value ∧ c2.curLayer = c.curLayer ∧ 0 ≤ c.curLayer ∧
      c.keys[c.curLayer.toNat]? = some ks ∧ c.values[c.curLayer.toNat]? = some vs ∧
      (ks = none ∨ vs = none) ∧
      kbuf = ops.Empty cc dtype shape ∧ vbuf = ops.Empty cc2 dtype2 shape2 ∧
      c2.keys = c.keys.set c.curLayer.toNat kbuf ∧
      c2.values = c.values.set c.curLayer.toNat vbuf) := by
  cases op with
  | init backend dtype capacity =>
    obtain ⟨-, rfl⟩ := Init_ok_inv c c2 backend dtype capacity h
    exact Or.inl ⟨rfl, rfl, Or.inl rfl⟩
  | setConfig config =>
    obtain ⟨-, rfl⟩ := SetConfig_ok_inv c c2 config h
    exact Or.inl ⟨rfl, rfl, Or.inl rfl⟩
  | close =>
    obtain ⟨cc, -, rfl⟩ := Close_ok_inv c c2 h
    exact Or.inl ⟨rfl, rfl, Or.inl rfl⟩
  | startForward ctx positions seqs =>
    cases hs : StartForward c ctx positions seqs with
    | error e => simp [call, hs, Except.map] at h
    | ok r =>
      obtain ⟨c3, err⟩ := r
      simp only [call, hs, Except.map, Except.ok.injEq] at h
      subst h
      obtain ⟨p, rest, -, rfl, -⟩ := StartForward_ok_inv c c3 ctx positions seqs err hs
      exact Or.inl ⟨rfl, rfl, Or.inl rfl⟩
  | setLayer layer =>
    obtain ⟨-, hset⟩ := call_setLayer_inv ops c c2 layer h
    rcases SetLayer_ok_inv c c2 layer hset with ⟨hlt, rfl⟩ | ⟨hk, -, -, rfl⟩
    · exact Or.inl ⟨rfl, rfl, Or.inr ⟨layer, rfl, rfl, hlt⟩⟩
    · exact Or.inr (Or.inl ⟨layer, _, _, rfl, rfl, hk, rfl, rfl, fun hlen => by rw [hlen]⟩)
  | get ctx =>
    cases hg : Get c ctx with
    | error e => simp [call, hg, Except.map] at h
    | ok r =>
      obtain ⟨⟨k, v, mask⟩, c3⟩ := r
      simp only [call, hg, Except.map, Except.ok.injEq] at h
      subst h
      obtain ⟨-, -, -, -, rfl⟩ := Get_ok_inv c c3 ctx k v mask hg
      exact Or.inl ⟨rfl, rfl, Or.inl rfl⟩
  | put ctx key value =>
    cases hp : Put ops c ctx key value with
    | error e => simp [call, hp, Except.map] at h
    | ok r =>
      obtain ⟨c3, ctx3⟩ := r
      simp only [call, hp, Except.map, Except.ok.injEq] at h
      subst h
      obtain ⟨cfg, ks, vs, -, h0, hk, hv, hcase⟩ := Put_ok_inv ops c ctx key value c3 ctx3 hp
      rcases hcase with ⟨kb, vb, -, -, rfl⟩ | ⟨habs, cc, -, rfl⟩
      · exact Or.inl ⟨rfl, rfl, Or.inl rfl⟩
      · exact Or.inr (Or.inr ⟨ctx, key, value, ks, vs, _, _, cc, _, _, _, _, _, rfl, rfl, h0, hk,
          hv, habs, rfl, rfl, rfl, rfl⟩)
  | copyPrefix srcSeq dstSeq len => simp [call, CopyPrefix] at h
  | remove seq beginIndex endIndex =>
    simp only [call, Except.ok.injEq] at h
    subst h
    unfold Remove
    dsimp only
    split
    · exact Or.inl ⟨rfl, rfl, Or.inl rfl⟩
    · exact Or.inl ⟨rfl, rfl, Or.inl rfl⟩

/-- What a completed call did to the cached flag, the config and the cache
context. -/
theorem call_meta {T : Type} (ops : ml.TensorOps T) (c c2 : EncoderCache T) (op : Call T)
    (h : call ops c op = .ok c2) :
    (c2.encoderCached = c.encoderCached ∨ c2.encoderCached = false ∨
      ∃ ctx key value, op = .put ctx key value) ∧
    ((∃ cfg, c2.config = some cfg ∧ (cfg.CachePadding = 0 ∨ cfg.CachePadding = 1)) ∨
      (c.config = none ∧ c2.cacheCtx = c.cacheCtx) ∨
      (c2.config = c.config ∧ (c2.cacheCtx.isSome = true → c.cacheCtx.isSome = true))) := by
  cases op with
  | init backend dtype capacity =>
    obtain ⟨hpad, rfl⟩ := Init_ok_inv c c2 backend dtype capacity h
    exact ⟨Or.inl rfl, Or.inl ⟨_, rfl, hpad⟩⟩
  | setConfig config =>
    obtain ⟨hnone, rfl⟩ := SetConfig_ok_inv c c2 config h
    exact ⟨Or.inl rfl, Or.inr (Or.inl ⟨hnone, rfl⟩)⟩
  | close =>
    obtain ⟨cc, hcc, rfl⟩ := Close_ok_inv c c2 h
    exact ⟨Or.inl rfl, Or.inr (Or.inr ⟨rfl, fun _ => by rw [hcc]; rfl⟩)⟩
  | startForward ctx positions seqs =>
    cases hs : StartForward c ctx positions seqs with
    | error e => simp [call, hs, Except.map] at h
    | ok r =>
      obtain ⟨c3, err⟩ := r
      simp only [call, hs, Except.map, Except.ok.injEq] at h
      subst h
      obtain ⟨p, rest, -, rfl, -⟩ := StartForward_ok_inv c c3 ctx positions seqs err hs
      exact ⟨Or.inl rfl, Or.inr (Or.inr ⟨rfl, fun hc => hc⟩)⟩
  | setLayer layer =>
    obtain ⟨-, hset⟩ := call_setLayer_inv ops c c2 layer h
    rcases SetLayer_ok_inv c c2 layer hset with ⟨-, rfl⟩ | ⟨-, -, -, rfl⟩
    · exact ⟨Or.inl rfl, Or.inr (Or.inr ⟨rfl, fun hc => hc⟩)⟩
    · exact ⟨Or.inl rfl, Or.inr (Or.inr ⟨rfl, fun hc => hc⟩)⟩
  | get ctx =>
    cases hg : Get c ctx with
    | error e => simp [call, hg, Except.map] at h
    | ok r =>
      obtain ⟨⟨k, v, mask⟩, c3⟩ := r
      simp only [call, hg, Except.map, Except.ok.injEq] at h
      subst h
      obtain ⟨-, -, -, -, rfl⟩ := Get_ok_inv c c3 ctx k v mask hg
      exact ⟨Or.inl rfl, Or.inr (Or.inr ⟨rfl, fun hc => hc⟩)⟩
  | put ctx key value =>
    cases hp : Put ops c ctx key value with
    | error e => simp [call, hp, Except.map] at h
    | ok r =>
      obtain ⟨c3, ctx3⟩ := r
      simp only [call, hp, Except.map, Except.ok.injEq] at h
      subst h
      obtain ⟨cfg, ks, vs, -, -, -, -, hcase⟩ := Put_ok_inv ops c ctx key value c3 ctx3 hp
      rcases hcase with ⟨kb, vb, -, -, rfl⟩ | ⟨-, cc, hcc, rfl⟩
      · exact ⟨Or.inr (Or.inr ⟨ctx, key, value, rfl⟩), Or.inr (Or.inr ⟨rfl, fun hc => hc⟩)⟩
      · exact ⟨Or.inr (Or.inr ⟨ctx, key, value, rfl⟩),
          Or.inr (Or.inr ⟨rfl, fun _ => by rw [hcc]; rfl⟩)⟩
  | copyPrefix srcSeq dstSeq len => simp [call, CopyPrefix] at h
  | remove seq beginIndex endIndex =>
    simp only [call, Except.ok.injEq] at h
    subst h
    unfold Remove
    dsimp only
    split
    · exact ⟨Or.inr (Or.inl rfl), Or.inr (Or.inr ⟨rfl, fun hc => hc⟩)⟩
    · exact ⟨Or.inl rfl, Or.inr (Or.inr ⟨rfl, fun hc => hc⟩)⟩

/-- A completed call keeps every populated slot: the same key buffer and the
same value buffer stay at that layer. -/
theorem call_populated {T : Type} (ops : ml.TensorOps T) (c c2 : EncoderCache T) (op : Call T)
    (h : call ops c op = .ok c2) (l : Nat) (kb vb : T)
    (hk : c.keys[l]? = some (some kb)) (hv : c.values[l]? = some (some vb)) :
    c2.keys[l]? = some (some kb) ∧ c2.values[l]? = some (some vb) := by
  have hkl : l < c.keys.length := by
    rcases List.getElem?_eq_some_iff.mp hk with ⟨hl, -⟩; exact hl
  have hvl : l < c.values.length := by
    rcases List.getElem?_eq_some_iff.mp hv with ⟨hl, -⟩; exact hl
  rcases call_store ops c c2 op h with ⟨hk2, hv2, -⟩ | ⟨layer, nk, nv, -, -, -, hk2, hv2, -⟩ |
    ⟨ctx, key, value, ks, vs, kbuf, vbuf, cc, cc2, dt, dt2, sh, sh2, -, -, -, hks, hvs, habs, -,
      -, hk2, hv2⟩
  · rw [hk2, hv2]; exact ⟨hk, hv⟩
  · rw [hk2, hv2, List.getElem?_append_left hkl, List.getElem?_append_left hvl]
    exact ⟨hk, hv⟩
  · by_cases hl : c.curLayer.toNat = l
    · rw [hl, hk] at hks
      rw [hl, hv] at hvs
      rcases habs with rfl | rfl
      · exact absurd (Option.some.inj hks) (by simp)
      · exact absurd (Option.some.inj hvs) (by simp)
    · rw [hk2, hv2, List.getElem?_set_ne hl, List.getElem?_set_ne hl]
      exact ⟨hk, hv⟩

/-- A completed call never shrinks a store, keeps the two stores of equal
length when they were, and, unless it is a `SetLayer`, keeps the current layer
and both lengths. -/
theorem call_lengths {T : Type} (ops : ml.TensorOps T) (c c2 : EncoderCache T) (op : Call T)
    (h : call ops c op = .ok c2) :
    c.keys.length ≤ c2.keys.length ∧ c.values.length ≤ c2.values.length ∧
    (c.keys.length = c.values.length → c2.keys.length = c2.values.length) ∧
    ((∀ layer, op ≠ .setLayer layer) →
      c2.curLayer = c.curLayer ∧ c2.keys.length = c.keys.length ∧
      c2.values.length = c.values.length) := by
  rcases call_store ops c c2 op h with ⟨hk2, hv2, hcur⟩ | ⟨layer, nk, nv, hop, -, hkl, hk2, hv2, hnn⟩ |
    ⟨ctx, key, value, ks, vs, kbuf, vbuf, cc, cc2, dt, dt2, sh, sh2, -, hcur, -, -, -, -, -,
      -, hk2, hv2⟩
  · have hkl2 : c2.keys.length = c.keys.length := by rw [hk2]
    have hvl2 : c2.values.length = c.values.length := by rw [hv2]
    refine ⟨by omega, by omega, fun hlen => by omega, fun hno => ⟨?_, hkl2, hvl2⟩⟩
    rcases hcur with hcur | ⟨layer, hop, -, -⟩
    · exact hcur
    · exact absurd hop (hno layer)
  · have hkl2 : c2.keys.length = c.keys.length + nk := by
      rw [hk2, List.length_append, List.length_replicate]
    have hvl2 : c2.values.length = c.values.length + nv := by
      rw [hv2, List.length_append, List.length_replicate]
    refine ⟨by omega, by omega, fun hlen => ?_, fun hno => absurd hop (hno layer)⟩
    have hsame := hnn hlen
    omega
  · have hkl2 : c2.keys.length = c.keys.length := by rw [hk2, List.length_set]
    have hvl2 : c2.values.length = c.values.length := by rw [hv2, List.length_set]
    exact ⟨by omega, by omega, fun hlen => by omega, fun _ => ⟨hcur, hkl2, hvl2⟩⟩

/-- After a completed call every index of the key store holds the slot it held
or a buffer handed out by `Empty`, and so does every index of the value store. -/
theorem call_slots {T : Type} (ops : ml.TensorOps T) (c c2 : EncoderCache T) (op : Call T)
    (h : call ops c op = .ok c2) (i : Nat) :
    (i < c.keys.length → c2.keys[i]? = c.keys[i]? ∨
      ∃ cc dtype shape, c2.keys[i]? = some (ops.Empty cc dtype shape)) ∧
    (i < c.values.length → c2.values[i]? = c.values[i]? ∨
      ∃ cc dtype shape, c2.values[i]? = some (ops.Empty cc dtype shape)) := by
  rcases call_store ops c c2 op h with ⟨hk2, hv2, -⟩ | ⟨layer, nk, nv, -, -, -, hk2, hv2, -⟩ |
    ⟨ctx, key, value, ks, vs, kbuf, vbuf, cc, cc2, dt, dt2, sh, sh2, -, -, -, -, -, -, hkb,
      hvb, hk2, hv2⟩
  · rw [hk2, hv2]; exact ⟨fun _ => Or.inl rfl, fun _ => Or.inl rfl⟩
  · rw [hk2, hv2]
    exact ⟨fun hi => Or.inl (List.getElem?_append_left hi),
      fun hi => Or.inl (List.getElem?_append_left hi)⟩
  · rw [hk2, hv2]
    by_cases hl : c.curLayer.toNat = i
    · subst hl
      exact ⟨fun hi => Or.inr ⟨cc, dt, sh, by rw [List.getElem?_set_self hi, hkb]⟩,
        fun hi => Or.inr ⟨cc2, dt2, sh2, by rw [List.getElem?_set_self hi, hvb]⟩⟩
    · exact ⟨fun _ => Or.inl (List.getElem?_set_ne hl), fun _ => Or.inl (List.getElem?_set_ne hl)⟩

/-- A property kept by every completed call is kept by every completed
sequence of calls. -/
theorem calls_induct {T : Type} (ops : ml.TensorOps T) (P : EncoderCache T → Prop)
    (hstep : ∀ c op c2, P c → call ops c op = .ok c2 → P c2) :
    ∀ (trace : List (Call T)) (c c2 : EncoderCache T),
      P c → calls ops c trace = .ok c2 → P c2 := by
  intro trace
  induction trace with
  | nil =>
    intro c c2 hP h
    simp only [calls, Except.ok.injEq] at h
    exact h ▸ hP
  | cons op rest ih =>
    intro c c2 hP h
    cases hc : call ops c op with
    | error e => simp [calls, hc] at h
    | ok c1 =>
      simp only [calls, hc] at h
      exact ih c1 c2 (hstep c op c1 hP hc) h

/-- A sequence of calls followed by another is the second made on the state the
first one left. -/
theorem calls_append {T : Type} (ops : ml.TensorOps T) (first second : List (Call T))
    (c : EncoderCache T) :
    calls ops c (first ++ second) =
      match calls ops c first with
      | .ok c1 => calls ops c1 second
      | .error e => .error e := by
  induction first generalizing c with
  | nil => rfl
  | cons op rest ih =>
    cases hc : call ops c op with
    | error e => simp [calls, hc]
    | ok c1 => simp [calls, hc, ih]

/-! ## Properties of call sequences, and the remaining properties of `Put` -/

/-- C11: `StartForward(ctx, positions, seqs)` fails if and only if `positions` is
empty, and then by an index-out-of-range panic; on `p :: rest` it returns a nil
error, sets the current position to `p` and changes no other field, whatever
`rest` and `seqs` are. -/
theorem StartForward_spec {T : Type} (c : EncoderCache T) (ctx : ml.Context T)
    (positions seqs : List Int) :
    ((∃ r, StartForward c ctx positions seqs = .ok r) ↔ positions ≠ []) ∧
    (StartForward c ctx positions seqs = .error .indexOutOfRange ↔ positions = []) ∧
    (∀ (p : Int) (rest : List Int),
      StartForward c ctx (p :: rest) seqs = .ok ({ c with curPos := p }, none)) ∧
    (∀ (p : Int) (rest rest2 seqs2 : List Int),
      StartForward c ctx (p :: rest2) seqs2 = StartForward c ctx (p :: rest) seqs) := by
  have hcons : ∀ (p : Int) (rest seqs3 : List Int),
      StartForward c ctx (p :: rest) seqs3 = .ok ({ c with curPos := p }, none) := by
    intro p rest seqs3
    simp [StartForward, index, bind, Except.bind, pure, Except.pure]
  refine ⟨?_, ?_, fun p rest => hcons p rest seqs, fun p rest rest2 seqs2 => ?_⟩
  · cases positions with
    | nil => simp [StartForward, index, bind, Except.bind]
    | cons p rest => simp [hcons]
  · cases positions with
    | nil => simp [StartForward, index, bind, Except.bind]
    | cons p rest => simp [hcons]
  · rw [hcons, hcons]

/-- Counterexample for C12: right after `Init`, before any `SetLayer`, the store
is empty and both `Get` and `Put` panic with an index out of range; so does
`Get` after `SetLayer(0); SetLayer(-1)`. -/
theorem Get_Put_fail_before_SetLayer :
    calls bufferOps NewEncoderCache [.init plainBackend 0 0] = .ok freshCache ∧
    Initialized freshCache ∧
    Get freshCache emptyContext = .error .indexOutOfRange ∧
    Put bufferOps freshCache emptyContext sampleKey sampleValue = .error .indexOutOfRange ∧
    calls bufferOps NewEncoderCache [.init plainBackend 0 0, .setLayer 0, .setLayer (-1)] =
      .ok { sampleCache with curLayer := -1, keys := [none], values := [none] } ∧
    Get { sampleCache with curLayer := -1, keys := [none], values := [none] } emptyContext =
      .error .indexOutOfRange :=
  ⟨rfl, by decide, rfl, rfl, rfl, rfl⟩

/-- C12, amended: in every state of an initialized cache whose current layer is a
valid index of the store (as after `SetLayer(L)` with `L >= 0`), also before
any `Put`, `Get()` returns without failing and yields the slots of the current
layer, nil ones when nothing is stored there, and `Put` completes without
failing. -/
theorem Get_Put_complete_on_valid_layer {T : Type} (ops : ml.TensorOps T) (c : EncoderCache T)
    (ctx : ml.Context T) (key value : T) (hinit : Initialized c) (hvalid : ValidLayer c) :
    (∃ k v, Get c ctx = .ok ((k, v, none), c) ∧
      c.keys[c.curLayer.toNat]? = some k ∧ c.values[c.curLayer.toNat]? = some v ∧
      (c.keys[c.curLayer.toNat]? = some none → k = none) ∧
      (c.values[c.curLayer.toNat]? = some none → v = none)) ∧
    (∃ c2 ctx2, Put ops c ctx key value = .ok (c2, ctx2)) := by
  obtain ⟨hcfg, hctx, hlen⟩ := hinit
  obtain ⟨c2, ctx2, hput, -⟩ := Put_valid ops c ctx key value hcfg hctx hvalid
  obtain ⟨h0, hkl, hvl⟩ := hvalid
  have hkl2 : c.curLayer.toNat < c.keys.length := by omega
  have hvl2 : c.curLayer.toNat < c.values.length := by omega
  have hk := List.getElem?_eq_getElem hkl2
  have hv := List.getElem?_eq_getElem hvl2
  refine ⟨⟨_, _, Get_eq c ctx _ _ h0 hk hv, hk, hv, fun hn => ?_, fun hn => ?_⟩, c2, ctx2, hput⟩
  · rw [hk] at hn; exact Option.some.inj hn
  · rw [hv] at hn; exact Option.some.inj hn

/-- Witness for C12: `Get` and `Put` at layer 1 of a cache with two absent slots. -/
theorem Get_Put_complete_on_valid_layer_witness :
    Initialized sampleCache ∧ ValidLayer sampleCache ∧
    ((∃ k v, Get sampleCache emptyContext = .ok ((k, v, none), sampleCache) ∧
      sampleCache.keys[sampleCache.curLayer.toNat]? = some k ∧
      sampleCache.values[sampleCache.curLayer.toNat]? = some v ∧
      (sampleCache.keys[sampleCache.curLayer.toNat]? = some none → k = none) ∧
      (sampleCache.values[sampleCache.curLayer.toNat]? = some none → v = none)) ∧
    (∃ c2 ctx2, Put bufferOps sampleCache emptyContext sampleKey sampleValue = .ok (c2, ctx2))) :=
  ⟨by decide, by decide,
    Get_Put_complete_on_valid_layer bufferOps sampleCache emptyContext sampleKey sampleValue
      (by decide) (by decide)⟩

/-- A completed `Put` leaves the slot of the current layer populated when
`Empty` hands out buffers that are not nil. -/
theorem Put_populates {T : Type} (ops : ml.TensorOps T) (c : EncoderCache T) (ctx : ml.Context T)
    (key value : T) (c2 : EncoderCache T) (ctx2 : ml.Context T) (hempty : EmptyNonNil ops)
    (h : Put ops c ctx key value = .ok (c2, ctx2)) :
    Populated c2 c.curLayer.toNat := by
  obtain ⟨cfg, ks, vs, -, h0, hk, hv, hcase⟩ := Put_ok_inv ops c ctx key value c2 ctx2 h
  have hkl : c.curLayer.toNat < c.keys.length := by
    rcases List.getElem?_eq_some_iff.mp hk with ⟨hl, -⟩; exact hl
  have hvl : c.curLayer.toNat < c.values.length := by
    rcases List.getElem?_eq_some_iff.mp hv with ⟨hl, -⟩; exact hl
  rcases hcase with ⟨kb, vb, rfl, rfl, rfl⟩ | ⟨-, cc, -, rfl⟩
  · exact ⟨kb, vb, hk, hv⟩
  · obtain ⟨kb, hkb⟩ := Option.isSome_iff_exists.mp
      (hempty cc (ops.DType key) (ops.Shape key))
    obtain ⟨vb, hvb⟩ := Option.isSome_iff_exists.mp
      (hempty (cc.Empty ops (ops.DType key) (ops.Shape key)).2
        (ops.DType (storedValue ops cfg ctx value)) (ops.Shape (storedValue ops cfg ctx value)))
    refine ⟨kb, vb, ?_, ?_⟩
    · show (c.keys.set c.curLayer.toNat _)[c.curLayer.toNat]? = some (some kb)
      rw [List.getElem?_set_self hkl]
      exact congrArg some hkb
    · show (c.values.set c.curLayer.toNat _)[c.curLayer.toNat]? = some (some vb)
      rw [List.getElem?_set_self hvl]
      exact congrArg some hvb

/-- C13: in every state reached from `NewEncoderCache()` by calls that all
complete, if `EncoderCached()` is true then some layer has a non-nil key buffer
and a non-nil value buffer, given that `Empty` hands out buffers that are not
nil. -/
theorem cached_implies_populated {T : Type} (ops : ml.TensorOps T) (hempty : EmptyNonNil ops)
    (trace : List (Call T)) (c : EncoderCache T)
    (hreach : calls ops NewEncoderCache trace = .ok c) (hcached : EncoderCached c = true) :
    ∃ l, Populated c l := by
  have hinv : c.encoderCached = true → ∃ l, Populated c l := by
    refine calls_induct ops (fun d => d.encoderCached = true → ∃ l, Populated d l) ?_ trace
      NewEncoderCache c (fun hc => ?_) hreach
    · intro d op d2 hd hcall hc2
      rcases (call_meta ops d d2 op hcall).1 with hsame | hfalse | ⟨ctx, key, value, rfl⟩
      · obtain ⟨l, kb, vb, hk, hv⟩ := hd (hsame ▸ hc2)
        obtain ⟨hk2, hv2⟩ := call_populated ops d d2 op hcall l kb vb hk hv
        exact ⟨l, kb, vb, hk2, hv2⟩
      · rw [hfalse] at hc2
        exact Bool.noConfusion hc2
      · cases hp : Put ops d ctx key value with
        | error e => simp [call, hp, Except.map] at hcall
        | ok r =>
          obtain ⟨d3, ctx3⟩ := r
          simp only [call, hp, Except.map, Except.ok.injEq] at hcall
          subst hcall
          exact ⟨_, Put_populates ops d ctx key value d3 ctx3 hempty hp⟩
    · exact Bool.noConfusion hc
  exact hinv hcached

/-- Witness for C13: the state after `Init`, `StartForward`, `SetLayer(1)`, `Put`. -/
theorem cached_implies_populated_witness :
    EmptyNonNil bufferOps ∧
    calls bufferOps NewEncoderCache sampleTrace = .ok cachedCache ∧
    EncoderCached cachedCache = true ∧ ∃ l, Populated cachedCache l :=
  ⟨fun _ _ _ => rfl, rfl, rfl,
    cached_implies_populated bufferOps (fun _ _ _ => rfl) sampleTrace cachedCache rfl rfl⟩

/-- C14: when the slot of the current layer is populated, every `Put(ctx, key,
value)` that completes (it does whenever a config is fixed) allocates nothing
(the cache context is unchanged) and leaves both stores, hence their size and
every buffer handle, unchanged; and a populated slot of any layer keeps its
key buffer and its value buffer under every sequence of later calls that
complete.  The stores are lists indexed by layer, so each layer has one key
and one value slot. -/
theorem Put_overwrites_in_place {T : Type} (ops : ml.TensorOps T) (c : EncoderCache T)
    (ctx : ml.Context T) (key value : T) (kb vb : T) (h0 : 0 ≤ c.curLayer)
    (hk : c.keys[c.curLayer.toNat]? = some (some kb))
    (hv : c.values[c.curLayer.toNat]? = some (some vb)) :
    (c.config.isSome = true → ∃ c2 ctx2, Put ops c ctx key value = .ok (c2, ctx2)) ∧
    (∀ (c2 : EncoderCache T) (ctx2 : ml.Context T), Put ops c ctx key value = .ok (c2, ctx2) →
      c2.cacheCtx = c.cacheCtx ∧ c2.keys = c.keys ∧ c2.values = c.values) ∧
    (∀ (d d2 : EncoderCache T) (l : Nat) (kb2 vb2 : T) (trace : List (Call T)),
      d.keys[l]? = some (some kb2) → d.values[l]? = some (some vb2) →
      calls ops d trace = .ok d2 →
      d2.keys[l]? = some (some kb2) ∧ d2.values[l]? = some (some vb2)) := by
  refine ⟨fun hcfg => ?_, fun c2 ctx2 hput => ?_, ?_⟩
  · obtain ⟨cfg, hcfg2⟩ := Option.isSome_iff_exists.mp hcfg
    exact ⟨_, _, Put_populated ops c ctx key value cfg kb vb hcfg2 h0 hk hv⟩
  · obtain ⟨cfg, ks, vs, -, -, hks, hvs, hcase⟩ := Put_ok_inv ops c ctx key value c2 ctx2 hput
    rw [hk] at hks
    rw [hv] at hvs
    rcases hcase with ⟨-, -, -, -, rfl⟩ | ⟨habs, -⟩
    · exact ⟨rfl, rfl, rfl⟩
    · rcases habs with hn | hn
      · rw [hn] at hks; exact absurd (Option.some.inj hks) (by simp)
      · rw [hn] at hvs; exact absurd (Option.some.inj hvs) (by simp)
  · intro d d2 l kb2 vb2 trace hk2 hv2 hcalls
    exact calls_induct ops
      (fun e => e.keys[l]? = some (some kb2) ∧ e.values[l]? = some (some vb2))
      (fun e op e2 he hcall => call_populated ops e e2 op hcall l kb2 vb2 he.1 he.2)
      trace d d2 ⟨hk2, hv2⟩ hcalls

/-- Witness for C14: a second `Put`, of other tensors, on the populated layer 0. -/
theorem Put_overwrites_in_place_witness :
    ((0 : Int) ≤ 0 ∧
      ({ twoLayerCache with curLayer := 0 } : EncoderCache Buffer).keys[(0 : Int).toNat]? =
        some (some sampleKey) ∧
      ({ twoLayerCache with curLayer := 0 } : EncoderCache Buffer).values[(0 : Int).toNat]? =
        some (some sampleValue)) ∧
    Put bufferOps { twoLayerCache with curLayer := 0 } emptyContext sampleValue sampleKey =
      .ok ({ twoLayerCache with curLayer := 0, encoderCached := true },
        { allocated := [],
          forwarded := [{ handle := 2, dtype := 0, shape := [2, 3, 4, 1] },
                        { handle := 1, dtype := 1, shape := [5, 6, 7, 1] }],
          closed := false }) ∧
    ({ twoLayerCache with curLayer := 0, encoderCached := true } : EncoderCache Buffer).cacheCtx =
      ({ twoLayerCache with curLayer := 0 } : EncoderCache Buffer).cacheCtx ∧
    ({ twoLayerCache with curLayer := 0, encoderCached := true } : EncoderCache Buffer).keys =
      ({ twoLayerCache with curLayer := 0 } : EncoderCache Buffer).keys ∧
    ({ twoLayerCache with curLayer := 0, encoderCached := true } : EncoderCache Buffer).values =
      ({ twoLayerCache with curLayer := 0 } : EncoderCache Buffer).values :=
  ⟨⟨by decide, rfl, rfl⟩, rfl,
    (Put_overwrites_in_place bufferOps { twoLayerCache with curLayer := 0 } emptyContext
      sampleValue sampleKey sampleKey sampleValue (by decide) rfl rfl).2.1 _ _ rfl⟩

/-- Calls other than `SetLayer` pass no layer. -/
theorem layersPassed_cons {T : Type} (op : Call T) (rest : List (Call T))
    (hno : ∀ layer, op ≠ .setLayer layer) : layersPassed (op :: rest) = layersPassed rest := by
  cases op with
  | setLayer layer => exact absurd rfl (hno layer)
  | init _ _ _ => rfl
  | setConfig _ => rfl
  | close => rfl
  | startForward _ _ _ => rfl
  | get _ => rfl
  | put _ _ _ => rfl
  | copyPrefix _ _ _ => rfl
  | remove _ _ _ => rfl

/-- Every call either is a `SetLayer` or is none. -/
theorem setLayer_or_not {T : Type} (op : Call T) :
    (∃ layer, op = .setLayer layer) ∨ ∀ layer, op ≠ .setLayer layer := by
  cases op with
  | setLayer layer => exact Or.inl ⟨layer, rfl⟩
  | init _ _ _ => exact Or.inr (fun _ h => Call.noConfusion h)
  | setConfig _ => exact Or.inr (fun _ h => Call.noConfusion h)
  | close => exact Or.inr (fun _ h => Call.noConfusion h)
  | startForward _ _ _ => exact Or.inr (fun _ h => Call.noConfusion h)
  | get _ => exact Or.inr (fun _ h => Call.noConfusion h)
  | put _ _ _ => exact Or.inr (fun _ h => Call.noConfusion h)
  | copyPrefix _ _ _ => exact Or.inr (fun _ h => Call.noConfusion h)
  | remove _ _ _ => exact Or.inr (fun _ h => Call.noConfusion h)

/-- After a completed sequence of calls with non-negative layers, on stores of
equal length, the stores have equal length again: the larger of the length
before and 1 + the highest layer passed. -/
theorem calls_size {T : Type} (ops : ml.TensorOps T) :
    ∀ (trace : List (Call T)) (c c2 : EncoderCache T),
      c.keys.length = c.values.length → calls ops c trace = .ok c2 →
      (∀ layer ∈ layersPassed trace, 0 ≤ layer) →
      c2.keys.length = c2.values.length ∧
      (c2.keys.length : Int) = max (c.keys.length : Int) (expectedSize trace) := by
  intro trace
  induction trace with
  | nil =>
    intro c c2 hlen h _
    simp only [calls, Except.ok.injEq] at h
    subst h
    refine ⟨hlen, ?_⟩
    simp only [expectedSize, layersPassed, List.foldr_nil]
    omega
  | cons op rest ih =>
    intro c c2 hlen h hnn
    cases hc : call ops c op with
    | error e => simp [calls, hc] at h
    | ok c1 =>
      simp only [calls, hc] at h
      have hl := call_lengths ops c c1 op hc
      rcases setLayer_or_not op with ⟨layer, rfl⟩ | hno
      · have hlayer : 0 ≤ layer := hnn layer (by simp [layersPassed])
        have hrest : ∀ l2 ∈ layersPassed rest, 0 ≤ l2 :=
          fun l2 hl2 => hnn l2 (by simp [layersPassed, hl2])
        obtain ⟨heq, hsize⟩ := ih c1 c2 (hl.2.2.1 hlen) h hrest
        refine ⟨heq, ?_⟩
        have hc1 : (c1.keys.length : Int) = max (c.keys.length : Int) (layer + 1) := by
          obtain ⟨hint, hset⟩ := call_setLayer_inv ops c c1 layer hc
          have hfit := SetLayer_ok_fits c c1 layer hint.2 hset
          by_cases hlt : layer < (c.keys.length : Int)
          · rw [SetLayer_keep c layer hlt] at hset
            rw [← Except.ok.inj hset]
            show (c.keys.length : Int) = _
            omega
          · have hge : (c.keys.length : Int) ≤ layer := by omega
            rw [SetLayer_grow c layer hlen hge hfit] at hset
            rw [← Except.ok.inj hset]
            show ((c.keys ++ List.replicate _ none).length : Int) = _
            rw [List.length_append, List.length_replicate]
            omega
        rw [hsize, hc1]
        simp only [expectedSize, layersPassed, List.foldr_cons]
        omega
      · have hrest : ∀ l2 ∈ layersPassed rest, 0 ≤ l2 :=
          fun l2 hl2 => hnn l2 (by rw [layersPassed_cons op rest hno]; exact hl2)
        obtain ⟨heq, hsize⟩ := ih c1 c2 (hl.2.2.1 hlen) h hrest
        refine ⟨heq, ?_⟩
        rw [hsize, (hl.2.2.2 hno).2.1]
        simp only [expectedSize, layersPassed_cons op rest hno]

/-- The highest layer of a list of non-negative layers is at least -1. -/
theorem foldr_max_ge {layers : List Int} : -1 ≤ layers.foldr max (-1) := by
  induction layers with
  | nil => simp
  | cons l rest ih => simp only [List.foldr_cons]; omega

/-- C15: a call that completes never makes the key store or the value store
shorter, and every index that existed holds the same slot as before or, given
that `Empty` hands out non-nil buffers, a populated one; and from a new cache,
after calls that all complete and pass only non-negative layers to `SetLayer`,
both stores have size 1 + the highest layer passed (0 when there is none). -/
theorem store_never_shrinks {T : Type} (ops : ml.TensorOps T) :
    (∀ (c c2 : EncoderCache T) (op : Call T), call ops c op = .ok c2 →
      c.keys.length ≤ c2.keys.length ∧ c.values.length ≤ c2.values.length ∧
      (EmptyNonNil ops → ∀ i : Nat, i < c.keys.length → i < c.values.length →
        (c2.keys[i]? = c.keys[i]? ∧ c2.values[i]? = c.values[i]?) ∨ Populated c2 i)) ∧
    (∀ (trace : List (Call T)) (c : EncoderCache T),
      calls ops NewEncoderCache trace = .ok c →
      (∀ layer ∈ layersPassed trace, 0 ≤ layer) →
      (c.keys.length : Int) = expectedSize trace ∧
      (c.values.length : Int) = expectedSize trace) := by
  constructor
  · intro c c2 op h
    have hl := call_lengths ops c c2 op h
    refine ⟨hl.1, hl.2.1, fun hempty i hik hiv => ?_⟩
    rcases call_store ops c c2 op h with ⟨hk2, hv2, -⟩ | ⟨layer, nk, nv, -, -, -, hk2, hv2, -⟩ |
      ⟨ctx, key, value, ks, vs, kbuf, vbuf, cc, cc2, dt, dt2, sh, sh2, -, -, -, hks, hvs, -, hkb,
        hvb, hk2, hv2⟩
    · rw [hk2, hv2]; exact Or.inl ⟨rfl, rfl⟩
    · rw [hk2, hv2]
      exact Or.inl ⟨List.getElem?_append_left hik, List.getElem?_append_left hiv⟩
    · by_cases hl2 : c.curLayer.toNat = i
      · subst hl2
        obtain ⟨kb, hkb2⟩ := Option.isSome_iff_exists.mp (hempty cc dt sh)
        obtain ⟨vb, hvb2⟩ := Option.isSome_iff_exists.mp (hempty cc2 dt2 sh2)
        refine Or.inr ⟨kb, vb, ?_, ?_⟩
        · rw [hk2, List.getElem?_set_self hik, hkb, hkb2]
        · rw [hv2, List.getElem?_set_self hiv, hvb, hvb2]
      · rw [hk2, hv2]
        exact Or.inl ⟨List.getElem?_set_ne hl2, List.getElem?_set_ne hl2⟩
  · intro trace c h hnn
    obtain ⟨heq, hsize⟩ := calls_size ops trace NewEncoderCache c rfl h hnn
    have hge : (-1 : Int) ≤ (layersPassed trace).foldr max (-1) := foldr_max_ge
    have hk : (c.keys.length : Int) = expectedSize trace := by
      rw [hsize]
      simp only [expectedSize, NewEncoderCache, List.length_nil]
      omega
    exact ⟨hk, by rw [← heq]; exact hk⟩

/-- Witness for C15: after `sampleTrace`, whose only `SetLayer` passes 1, both
stores have size 2. -/
theorem store_never_shrinks_witness :
    calls bufferOps NewEncoderCache sampleTrace = .ok cachedCache ∧
    (cachedCache.keys.length : Int) = 2 ∧ (cachedCache.values.length : Int) = 2 :=
  ⟨rfl,
    (store_never_shrinks bufferOps).2 sampleTrace cachedCache rfl (by decide)⟩

/-- A completed call keeps a cache context once there is one, and `Init`
provides one. -/
theorem call_ctx {T : Type} (ops : ml.TensorOps T) (c c2 : EncoderCache T) (op : Call T)
    (h : call ops c op = .ok c2) :
    (c.cacheCtx.isSome = true → c2.cacheCtx.isSome = true) ∧
    (∀ backend dtype capacity, op = .init backend dtype capacity →
      c2.cacheCtx.isSome = true) := by
  cases op with
  | init backend dtype capacity =>
    obtain ⟨-, rfl⟩ := Init_ok_inv c c2 backend dtype capacity h
    exact ⟨fun _ => rfl, fun _ _ _ _ => rfl⟩
  | setConfig config =>
    obtain ⟨-, rfl⟩ := SetConfig_ok_inv c c2 config h
    exact ⟨fun hc => hc, fun _ _ _ hop => Call.noConfusion hop⟩
  | close =>
    obtain ⟨cc, -, rfl⟩ := Close_ok_inv c c2 h
    exact ⟨fun _ => rfl, fun _ _ _ hop => Call.noConfusion hop⟩
  | startForward ctx positions seqs =>
    cases hs : StartForward c ctx positions seqs with
    | error e => simp [call, hs, Except.map] at h
    | ok r =>
      obtain ⟨c3, err⟩ := r
      simp only [call, hs, Except.map, Except.ok.injEq] at h
      subst h
      obtain ⟨p, rest, -, rfl, -⟩ := StartForward_ok_inv c c3 ctx positions seqs err hs
      exact ⟨fun hc => hc, fun _ _ _ hop => Call.noConfusion hop⟩
  | setLayer layer =>
    obtain ⟨-, hset⟩ := call_setLayer_inv ops c c2 layer h
    rcases SetLayer_ok_inv c c2 layer hset with ⟨-, rfl⟩ | ⟨-, -, -, rfl⟩
    · exact ⟨fun hc => hc, fun _ _ _ hop => Call.noConfusion hop⟩
    · exact ⟨fun hc => hc, fun _ _ _ hop => Call.noConfusion hop⟩
  | get ctx =>
    cases hg : Get c ctx with
    | error e => simp [call, hg, Except.map] at h
    | ok r =>
      obtain ⟨⟨k, v, mask⟩, c3⟩ := r
      simp only [call, hg, Except.map, Except.ok.injEq] at h
      subst h
      obtain ⟨-, -, -, -, rfl⟩ := Get_ok_inv c c3 ctx k v mask hg
      exact ⟨fun hc => hc, fun _ _ _ hop => Call.noConfusion hop⟩
  | put ctx key value =>
    cases hp : Put ops c ctx key value with
    | error e => simp [call, hp, Except.map] at h
    | ok r =>
      obtain ⟨c3, ctx3⟩ := r
      simp only [call, hp, Except.map, Except.ok.injEq] at h
      subst h
      obtain ⟨cfg, ks, vs, -, -, -, -, hcase⟩ := Put_ok_inv ops c ctx key value c3 ctx3 hp
      rcases hcase with ⟨kb, vb, -, -, rfl⟩ | ⟨-, cc, -, rfl⟩
      · exact ⟨fun hc => hc, fun _ _ _ hop => Call.noConfusion hop⟩
      · exact ⟨fun _ => rfl, fun _ _ _ hop => Call.noConfusion hop⟩
  | copyPrefix srcSeq dstSeq len => simp [call, CopyPrefix] at h
  | remove seq beginIndex endIndex =>
    simp only [call, Except.ok.injEq] at h
    subst h
    unfold Remove
    dsimp only
    split
    · exact ⟨fun hc => hc, fun _ _ _ hop => Call.noConfusion hop⟩
    · exact ⟨fun hc => hc, fun _ _ _ hop => Call.noConfusion hop⟩

/-- A completed call keeps: the cache owns a context and its config is fixed
with a padding of 0 or 1. -/
theorem call_padding {T : Type} (ops : ml.TensorOps T) (c c2 : EncoderCache T) (op : Call T)
    (h : call ops c op = .ok c2)
    (hinv : c.cacheCtx.isSome = true ∧
      ∃ cfg, c.config = some cfg ∧ (cfg.CachePadding = 0 ∨ cfg.CachePadding = 1)) :
    c2.cacheCtx.isSome = true ∧
      ∃ cfg, c2.config = some cfg ∧ (cfg.CachePadding = 0 ∨ cfg.CachePadding = 1) := by
  obtain ⟨hctx, cfg, hcfg, hpad⟩ := hinv
  refine ⟨(call_ctx ops c c2 op h).1 hctx, ?_⟩
  rcases (call_meta ops c c2 op h).2 with hnew | ⟨hnone, -⟩ | ⟨hsame, -⟩
  · exact hnew
  · rw [hcfg] at hnone
    exact Option.noConfusion hnone
  · exact ⟨cfg, hsame.trans hcfg, hpad⟩

/-- Counterexample for C16: `SetConfig` with padding 5 on a new cache completes
and fixes that config; 5 is neither 0 nor 1. -/
theorem SetConfig_fixes_any_padding :
    calls bufferOps NewEncoderCache [.setConfig { CachePadding := 5, PermutedV := false }] =
      .ok { (NewEncoderCache : EncoderCache Buffer) with
              config := some { CachePadding := 5, PermutedV := false } } ∧
    ¬ ((5 : Int) = 0 ∨ (5 : Int) = 1) :=
  ⟨rfl, by decide⟩

/-- C16, amended: in every state reached from `NewEncoderCache()` by calls that
all complete and among which there is an `Init`, a config is fixed and its
`CachePadding` is 0 or 1. -/
theorem padding_valid_after_Init {T : Type} (ops : ml.TensorOps T) (trace : List (Call T))
    (c : EncoderCache T) (hreach : calls ops NewEncoderCache trace = .ok c)
    (hinit : ∃ backend dtype capacity, Call.init backend dtype capacity ∈ trace) :
    ∃ cfg, c.config = some cfg ∧ (cfg.CachePadding = 0 ∨ cfg.CachePadding = 1) := by
  obtain ⟨backend, dtype, capacity, hmem⟩ := hinit
  obtain ⟨before, after, rfl⟩ := List.append_of_mem hmem
  rw [calls_append] at hreach
  cases hb : calls ops NewEncoderCache before with
  | error e => simp [hb] at hreach
  | ok c1 =>
    simp only [hb] at hreach
    cases hi : call ops c1 (.init backend dtype capacity) with
    | error e => simp [calls, hi] at hreach
    | ok c2 =>
      simp only [calls, hi] at hreach
      have hstart : c2.cacheCtx.isSome = true ∧
          ∃ cfg, c2.config = some cfg ∧ (cfg.CachePadding = 0 ∨ cfg.CachePadding = 1) := by
        obtain ⟨hpad, rfl⟩ := Init_ok_inv c1 c2 backend dtype capacity hi
        exact ⟨rfl, _, rfl, hpad⟩
      exact (calls_induct ops
        (fun d => d.cacheCtx.isSome = true ∧
          ∃ cfg, d.config = some cfg ∧ (cfg.CachePadding = 0 ∨ cfg.CachePadding = 1))
        (fun d op d2 hd hcall => call_padding ops d d2 op hcall hd) after c2 c hstart hreach).2

/-- Witness for C16: the state after `sampleTrace`, which starts with `Init`. -/
theorem padding_valid_after_Init_witness :
    calls bufferOps NewEncoderCache sampleTrace = .ok cachedCache ∧
    (∃ backend dtype capacity, Call.init backend dtype capacity ∈ sampleTrace) ∧
    ∃ cfg, cachedCache.config = some cfg ∧ (cfg.CachePadding = 0 ∨ cfg.CachePadding = 1) :=
  ⟨rfl, ⟨plainBackend, 0, 0, List.mem_cons_self _ _⟩,
    padding_valid_after_Init bufferOps sampleTrace cachedCache rfl
      ⟨plainBackend, 0, 0, List.mem_cons_self _ _⟩⟩

/-- C17: after a successful `Init` on a cache created by `NewEncoderCache()`,
optionally with one `SetConfig` before it, `EncoderCached()` is false; more
generally `Init` leaves the cached flag as it was. -/
theorem Init_not_cached {T : Type} (backend : ml.Backend T) (dtype : ml.DType) (capacity : Int) :
    (∀ c1 : EncoderCache T, Init NewEncoderCache backend dtype capacity = .ok c1 →
      EncoderCached c1 = false) ∧
    (∀ (config : ml.CacheConfig) (c0 c1 : EncoderCache T),
      SetConfig NewEncoderCache config = .ok c0 → Init c0 backend dtype capacity = .ok c1 →
      EncoderCached c1 = false) ∧
    (∀ c c1 : EncoderCache T, Init c backend dtype capacity = .ok c1 →
      EncoderCached c1 = EncoderCached c) := by
  have hkeep : ∀ c c1 : EncoderCache T, Init c backend dtype capacity = .ok c1 →
      EncoderCached c1 = EncoderCached c := by
    intro c c1 h
    obtain ⟨-, rfl⟩ := Init_ok_inv c c1 backend dtype capacity h
    rfl
  refine ⟨fun c1 h => ?_, fun config c0 c1 hset h => ?_, hkeep⟩
  · rw [hkeep _ c1 h]; rfl
  · obtain ⟨-, rfl⟩ := SetConfig_ok_inv NewEncoderCache c0 config hset
    rw [hkeep _ c1 h]; rfl

/-- Witness for C17: `Init` on a new cache, and `Init` after `SetConfig`. -/
theorem Init_not_cached_witness :
    Init (NewEncoderCache : EncoderCache Buffer) plainBackend 0 0 = .ok freshCache ∧
    EncoderCached freshCache = false ∧
    SetConfig (NewEncoderCache : EncoderCache Buffer) ⟨1, true⟩ =
      .ok { (NewEncoderCache : EncoderCache Buffer) with config := some ⟨1, true⟩ } ∧
    Init { (NewEncoderCache : EncoderCache Buffer) with config := some ⟨1, true⟩ }
        plainBackend 0 0 =
      .ok { (NewEncoderCache : EncoderCache Buffer) with
              config := some ⟨1, true⟩, cacheCtx := some emptyContext } ∧
    EncoderCached ({ (NewEncoderCache : EncoderCache Buffer) with
              config := some ⟨1, true⟩, cacheCtx := some emptyContext }) = false :=
  ⟨rfl, (Init_not_cached plainBackend 0 0).1 freshCache rfl, rfl, rfl,
    (Init_not_cached plainBackend 0 0).2.1 ⟨1, true⟩ _ _ rfl rfl⟩

/-- The calls `SetLayer(layer)`, `Put`, `Get` on an absent slot of an initialized
cache, when `SetLayer` completes, return the two buffers that `Empty` handed
out for the type and shape of `key` and of the value as stored. -/
theorem putGetAt_absent {T : Type} (ops : ml.TensorOps T) (c c1 : EncoderCache T)
    (ctx : ml.Context T) (key value : T) (layer : Int) (cfg : ml.CacheConfig)
    (hinit : Initialized c) (hcfg : c.config = some cfg) (hlayer : 0 ≤ layer)
    (hint : layer ≤ maxInt) (habs : SlotAbsent c layer.toNat)
    (hset : SetLayer c layer = .ok c1) :
    ∃ cc cc2, putGetAt ops c ctx layer key value =
      .ok (ops.Empty cc (ops.DType key) (ops.Shape key),
        ops.Empty cc2 (ops.DType (storedValue ops cfg ctx value))
          (ops.Shape (storedValue ops cfg ctx value)), none) := by
  obtain ⟨-, hctx, hlen⟩ := hinit
  obtain ⟨cc, hcc⟩ := Option.isSome_iff_exists.mp hctx
  obtain ⟨c3, ks, vs, hset3, hcur, hcfg1, hctx1, hk, hv, hnil⟩ :=
    SetLayer_absent c layer hlen hlayer (SetLayer_ok_fits c c1 layer hint hset) habs
  have h0 : 0 ≤ c3.curLayer := by rw [hcur]; exact hlayer
  rw [← hcur] at hk hv
  have hkl : c3.curLayer.toNat < c3.keys.length := by
    rcases List.getElem?_eq_some_iff.mp hk with ⟨h, -⟩; exact h
  have hvl : c3.curLayer.toNat < c3.values.length := by
    rcases List.getElem?_eq_some_iff.mp hv with ⟨h, -⟩; exact h
  have hput := Put_absent ops c3 ctx key value cfg cc ks vs (hcfg1.trans hcfg) (hctx1.trans hcc)
    h0 hk hv hnil
  refine ⟨cc, (cc.Empty ops (ops.DType key) (ops.Shape key)).2, ?_⟩
  simp only [putGetAt, hset3, hput, bind, Except.bind]
  rw [Get_eq _ _ (ops.Empty cc (ops.DType key) (ops.Shape key))
    (ops.Empty (cc.Empty ops (ops.DType key) (ops.Shape key)).2
      (ops.DType (storedValue ops cfg ctx value)) (ops.Shape (storedValue ops cfg ctx value)))
    (by exact h0) ?_ ?_]
  · rfl
  · show (c3.keys.set c3.curLayer.toNat _)[c3.curLayer.toNat]? = _
    rw [List.getElem?_set_self hkl]; rfl
  · show (c3.values.set c3.curLayer.toNat _)[c3.curLayer.toNat]? = _
    rw [List.getElem?_set_self hvl]; rfl

/-- Counterexample for C18, at two inputs.  With `PermutedV` configured, a value
of shape `[5, 6, 7, 1]` put at the absent layer 0 comes back from `Get` as a
buffer of shape `[6, 7, 5, 1]`, not of the shape of the value, while the
comment on the struct says tensors "will be returned as they were stored".
And at the absent layer `maxInt >= 0` of an empty store the calls return
nothing: `SetLayer` panics in `make`. -/
theorem not_returned_as_stored :
    Initialized permutedCache ∧ SlotAbsent permutedCache (0 : Int).toNat ∧
    EmptyFaithful bufferOps ∧
    putGetAt bufferOps permutedCache emptyContext 0 sampleKey sampleValue =
      .ok (some { handle := 100, dtype := 0, shape := [2, 3, 4, 1] },
        some { handle := 101, dtype := 1, shape := [6, 7, 5, 1] }, none) ∧
    bufferOps.Shape sampleValue = [5, 6, 7, 1] ∧
    bufferOps.Shape { handle := 101, dtype := 1, shape := [6, 7, 5, 1] } ≠
      bufferOps.Shape sampleValue ∧
    Initialized { freshCache with config := some ⟨1, false⟩ } ∧ IsInt maxInt ∧
    SlotAbsent { freshCache with config := some ⟨1, false⟩ } maxInt.toNat ∧
    putGetAt bufferOps { freshCache with config := some ⟨1, false⟩ } emptyContext maxInt
      sampleKey sampleValue = .error .makeLenOutOfRange :=
  ⟨by decide, Or.inl rfl, fun _ _ _ => ⟨_, rfl, rfl, rfl⟩, rfl, rfl, by decide, by decide,
    by decide, Or.inl rfl, rfl⟩

/-- C18, amended: on an initialized cache whose slot at the `int` layer
`layer >= 0` is absent, whenever `SetLayer(layer)` completes, after
`SetLayer(layer); Put(ctx, key, value)`, `Get()` returns a key buffer with the
shape and element type of `key` and, when `PermutedV` is not configured, a
value buffer with the shape and element type of `value` (given that `Empty`
hands out buffers of the requested type and shape).  Nothing is stated for a
cache with `PermutedV`. -/
theorem returned_as_stored {T : Type} (ops : ml.TensorOps T) (c c1 : EncoderCache T)
    (ctx : ml.Context T) (key value : T) (layer : Int) (cfg : ml.CacheConfig)
    (hinit : Initialized c) (hcfg : c.config = some cfg) (hlayer : 0 ≤ layer)
    (hint : layer ≤ maxInt) (habs : SlotAbsent c layer.toNat) (hempty : EmptyFaithful ops)
    (hset : SetLayer c layer = .ok c1) :
    ∃ kb vb, putGetAt ops c ctx layer key value = .ok (some kb, some vb, none) ∧
      ops.Shape kb = ops.Shape key ∧ ops.DType kb = ops.DType key ∧
      (cfg.PermutedV = false →
        ops.Shape vb = ops.Shape value ∧ ops.DType vb = ops.DType value) := by
  obtain ⟨cc, cc2, hget⟩ :=
    putGetAt_absent ops c c1 ctx key value layer cfg hinit hcfg hlayer hint habs hset
  obtain ⟨kb, hkb, hkd, hksh⟩ := hempty cc (ops.DType key) (ops.Shape key)
  obtain ⟨vb, hvb, hvd, hvsh⟩ := hempty cc2 (ops.DType (storedValue ops cfg ctx value))
    (ops.Shape (storedValue ops cfg ctx value))
  rw [hkb, hvb] at hget
  refine ⟨kb, vb, hget, hksh, hkd, fun hp => ?_⟩
  have hs : storedValue ops cfg ctx value = value := by simp [storedValue, hp]
  rw [hs] at hvd hvsh
  exact ⟨hvsh, hvd⟩

/-- Witness for C18: a put at layer 3 of a cache without `PermutedV`. -/
theorem returned_as_stored_witness :
    Initialized sampleCache ∧ sampleCache.config = some ⟨0, false⟩ ∧ (0 : Int) ≤ 3 ∧
    (3 : Int) ≤ maxInt ∧ SlotAbsent sampleCache (3 : Int).toNat ∧ EmptyFaithful bufferOps ∧
    SetLayer sampleCache 3 =
      .ok { sampleCache with curLayer := 3, keys := [none, none, none, none],
                             values := [none, none, none, none] } ∧
    ∃ kb vb, putGetAt bufferOps sampleCache emptyContext 3 sampleKey sampleValue =
        .ok (some kb, some vb, none) ∧
      bufferOps.Shape kb = bufferOps.Shape sampleKey ∧
      bufferOps.DType kb = bufferOps.DType sampleKey ∧
      ((⟨0, false⟩ : ml.CacheConfig).PermutedV = false →
        bufferOps.Shape vb = bufferOps.Shape sampleValue ∧
        bufferOps.DType vb = bufferOps.DType sampleValue) :=
  ⟨by decide, rfl, by decide, by decide, Or.inl rfl, fun _ _ _ => ⟨_, rfl, rfl, rfl⟩, rfl,
    returned_as_stored bufferOps sampleCache _ emptyContext sampleKey sampleValue 3 ⟨0, false⟩
      (by decide) rfl (by decide) (by decide) (Or.inl rfl) (fun _ _ _ => ⟨_, rfl, rfl, rfl⟩) rfl⟩

/-- C19: on an initialized cache whose current layer is a valid index, `Put`
completes and appends to the tensors forwarded on the caller's context exactly
two copies, in this order: `key` into the key slot of the current layer, and
`value` (permuted by `[1, 2, 0, 3]` iff `PermutedV`) into its value slot; it
asks the caller's context for nothing else, leaves the slots of every other
layer as they were, and leaves a populated slot of the current layer as it
was. -/
theorem Put_schedules_two_copies {T : Type} (ops : ml.TensorOps T) (c : EncoderCache T)
    (ctx : ml.Context T) (key value : T) (cfg : ml.CacheConfig)
    (hinit : Initialized c) (hcfg : c.config = some cfg) (hvalid : ValidLayer c) :
    ∃ c2 ctx2 kdst vdst, Put ops c ctx key value = .ok (c2, ctx2) ∧
      c2.keys[c.curLayer.toNat]? = some kdst ∧ c2.values[c.curLayer.toNat]? = some vdst ∧
      ctx2.forwarded = ctx.forwarded ++
        [ops.Copy ctx key kdst,
          ops.Copy ctx (if cfg.PermutedV then ops.Permute ctx value [1, 2, 0, 3] else value)
            vdst] ∧
      ctx2.allocated = ctx.allocated ∧ ctx2.closed = ctx.closed ∧
      (∀ l : Nat, l ≠ c.curLayer.toNat →
        c2.keys[l]? = c.keys[l]? ∧ c2.values[l]? = c.values[l]?) ∧
      (∀ kb vb, c.keys[c.curLayer.toNat]? = some (some kb) →
        c.values[c.curLayer.toNat]? = some (some vb) →
        kdst = some kb ∧ vdst = some vb ∧ c2.keys = c.keys ∧ c2.values = c.values) := by
  obtain ⟨-, hctx, -⟩ := hinit
  obtain ⟨cc, hcc⟩ := Option.isSome_iff_exists.mp hctx
  obtain ⟨h0, hkl, hvl⟩ := hvalid
  have hkl2 : c.curLayer.toNat < c.keys.length := by omega
  have hvl2 : c.curLayer.toNat < c.values.length := by omega
  have hk : c.keys[c.curLayer.toNat]? = some c.keys[c.curLayer.toNat] :=
    List.getElem?_eq_getElem hkl2
  have hv : c.values[c.curLayer.toNat]? = some c.values[c.curLayer.toNat] :=
    List.getElem?_eq_getElem hvl2
  by_cases habs : c.keys[c.curLayer.toNat] = none ∨ c.values[c.curLayer.toNat] = none
  · refine ⟨_, _, _, _, Put_absent ops c ctx key value cfg cc _ _ hcfg hcc h0 hk hv habs,
      ?_, ?_, rfl, rfl, rfl, fun l hl => ?_, fun kb vb hkb hvb => ?_⟩
    · show (c.keys.set c.curLayer.toNat _)[c.curLayer.toNat]? = _
      rw [List.getElem?_set_self hkl2]
    · show (c.values.set c.curLayer.toNat _)[c.curLayer.toNat]? = _
      rw [List.getElem?_set_self hvl2]
    · exact ⟨List.getElem?_set_ne (Ne.symm hl), List.getElem?_set_ne (Ne.symm hl)⟩
    · rw [hk] at hkb
      rw [hv] at hvb
      rcases habs with hn | hn
      · rw [hn] at hkb; exact absurd (Option.some.inj hkb) (by simp)
      · rw [hn] at hvb; exact absurd (Option.some.inj hvb) (by simp)
  · obtain ⟨kb, hkb⟩ : ∃ kb, c.keys[c.curLayer.toNat] = some kb := by
      cases hks : c.keys[c.curLayer.toNat] with
      | none => exact absurd (Or.inl hks) habs
      | some kb => exact ⟨kb, rfl⟩
    obtain ⟨vb, hvb⟩ : ∃ vb, c.values[c.curLayer.toNat] = some vb := by
      cases hvs : c.values[c.curLayer.toNat] with
      | none => exact absurd (Or.inr hvs) habs
      | some vb => exact ⟨vb, rfl⟩
    rw [hkb] at hk
    rw [hvb] at hv
    refine ⟨_, _, some kb, some vb, Put_populated ops c ctx key value cfg kb vb hcfg h0 hk hv,
      hk, hv, rfl, rfl, rfl, fun l _ => ⟨rfl, rfl⟩, fun kb2 vb2 hkb2 hvb2 => ?_⟩
    rw [hk] at hkb2
    rw [hv] at hvb2
    exact ⟨Option.some.inj hkb2, Option.some.inj hvb2, rfl, rfl⟩

/-- Witness for C19: a `Put` with permuted values on an absent slot. -/
theorem Put_schedules_two_copies_witness :
    Initialized permutedCache ∧ permutedCache.config = some ⟨1, true⟩ ∧
    ValidLayer permutedCache ∧
    ∃ c2 ctx2 kdst vdst, Put bufferOps permutedCache emptyContext sampleKey sampleValue =
        .ok (c2, ctx2) ∧
      c2.keys[permutedCache.curLayer.toNat]? = some kdst ∧
      c2.values[permutedCache.curLayer.toNat]? = some vdst ∧
      ctx2.forwarded = (emptyContext : ml.Context Buffer).forwarded ++
        [bufferOps.Copy emptyContext sampleKey kdst,
          bufferOps.Copy emptyContext
            (if (⟨1, true⟩ : ml.CacheConfig).PermutedV then
              bufferOps.Permute emptyContext sampleValue [1, 2, 0, 3] else sampleValue)
            vdst] ∧
      ctx2.allocated = (emptyContext : ml.Context Buffer).allocated ∧
      ctx2.closed = (emptyContext : ml.Context Buffer).closed ∧
      (∀ l : Nat, l ≠ permutedCache.curLayer.toNat →
        c2.keys[l]? = permutedCache.keys[l]? ∧ c2.values[l]? = permutedCache.values[l]?) ∧
      (∀ kb vb, permutedCache.keys[permutedCache.curLayer.toNat]? = some (some kb) →
        permutedCache.values[permutedCache.curLayer.toNat]? = some (some vb) →
        kdst = some kb ∧ vdst = some vb ∧ c2.keys = permutedCache.keys ∧
          c2.values = permutedCache.values) :=
  ⟨by decide, rfl, by decide,
    Put_schedules_two_copies bufferOps permutedCache emptyContext sampleKey sampleValue ⟨1, true⟩
      (by decide) rfl (by decide)⟩

/-- A completed call other than `SetLayer` with a negative layer keeps: the
stores have equal length and the current layer is a valid index. -/
theorem call_valid {T : Type} (ops : ml.TensorOps T) (c c2 : EncoderCache T) (op : Call T)
    (h : call ops c op = .ok c2) (hnn : ∀ layer ∈ layersPassed [op], 0 ≤ layer)
    (hlen : c.keys.length = c.values.length) (hvalid : ValidLayer c) :
    c2.keys.length = c2.values.length ∧ ValidLayer c2 := by
  have hl := call_lengths ops c c2 op h
  refine ⟨hl.2.2.1 hlen, ?_⟩
  rcases setLayer_or_not op with ⟨layer, rfl⟩ | hno
  · have hlayer : 0 ≤ layer := hnn layer (by simp [layersPassed])
    obtain ⟨hint, hok⟩ := call_setLayer_inv ops c c2 layer h
    obtain ⟨c3, hset, hv3, -⟩ :=
      SetLayer_valid c layer hlen hlayer (SetLayer_ok_fits c c2 layer hint.2 hok)
    have : c3 = c2 := Except.ok.inj (hset.symm.trans hok)
    exact this ▸ hv3
  · obtain ⟨hcur, hk, hv⟩ := hl.2.2.2 hno
    obtain ⟨h0, hkl, hvl⟩ := hvalid
    exact ⟨by rw [hcur]; exact h0, by rw [hcur, hk]; exact hkl, by rw [hcur, hv]; exact hvl⟩

/-- A completed sequence of calls whose layers are all non-negative keeps: the
stores have equal length and the current layer is a valid index. -/
theorem calls_valid {T : Type} (ops : ml.TensorOps T) :
    ∀ (trace : List (Call T)) (c c2 : EncoderCache T),
      calls ops c trace = .ok c2 → (∀ layer ∈ layersPassed trace, 0 ≤ layer) →
      c.keys.length = c.values.length → ValidLayer c →
      c2.keys.length = c2.values.length ∧ ValidLayer c2 := by
  intro trace
  induction trace with
  | nil =>
    intro c c2 h _ hlen hvalid
    simp only [calls, Except.ok.injEq] at h
    exact h ▸ ⟨hlen, hvalid⟩
  | cons op rest ih =>
    intro c c2 h hnn hlen hvalid
    cases hc : call ops c op with
    | error e => simp [calls, hc] at h
    | ok c1 =>
      simp only [calls, hc] at h
      have hop : ∀ layer ∈ layersPassed [op], 0 ≤ layer := by
        intro layer hmem
        rcases setLayer_or_not op with ⟨l2, rfl⟩ | hno
        · exact hnn layer (by
            simp only [layersPassed, List.mem_singleton] at hmem
            simp [layersPassed, hmem])
        · rw [layersPassed_cons op [] hno] at hmem
          exact absurd hmem (by simp [layersPassed])
      have hrest : ∀ layer ∈ layersPassed rest, 0 ≤ layer := by
        intro layer hmem
        rcases setLayer_or_not op with ⟨l2, rfl⟩ | hno
        · exact hnn layer (by simp [layersPassed, hmem])
        · exact hnn layer (by rw [layersPassed_cons op rest hno]; exact hmem)
      obtain ⟨hlen1, hvalid1⟩ := call_valid ops c c1 op hc hop hlen hvalid
      exact ih c1 c2 h hrest hlen1 hvalid1

/-- On a valid current layer `Put` does not panic with an index out of range. -/
theorem Put_valid_in_range {T : Type} (ops : ml.TensorOps T) (c : EncoderCache T)
    (ctx : ml.Context T) (key value : T) (hvalid : ValidLayer c) :
    Put ops c ctx key value ≠ .error .indexOutOfRange := by
  obtain ⟨h0, hkl, hvl⟩ := hvalid
  have hkl2 : c.curLayer.toNat < c.keys.length := by omega
  have hvl2 : c.curLayer.toNat < c.values.length := by omega
  have hk := index_eq_ok c.keys c.curLayer _ h0 (List.getElem?_eq_getElem hkl2)
  have hv := index_eq_ok c.values c.curLayer _ h0 (List.getElem?_eq_getElem hvl2)
  rcases Option.eq_none_or_eq_some c.config with hcfg | ⟨cfg, hcfg⟩
  · simp [Put, deref, hcfg, bind, Except.bind]
  · rcases Option.eq_none_or_eq_some c.cacheCtx with hctx | ⟨cc, hctx⟩
    · cases hks : c.keys[c.curLayer.toNat] <;> cases hvs : c.values[c.curLayer.toNat] <;>
        simp [Put, deref, hcfg, hctx, hk, hv, hks, hvs, bind, Except.bind, pure, Except.pure,
          index_eq_ok, h0, hkl2, hvl2]
    · obtain ⟨c2, ctx2, hput, -⟩ := Put_valid ops c ctx key value (by simp [hcfg])
        (by simp [hctx]) ⟨h0, hkl, hvl⟩
      simp [hput]

/-- Counterexample for C20: after `Init`, `SetLayer(0)`, `SetLayer(-1)`, a state
later than a `SetLayer` with a non-negative layer, the current layer is -1,
not a valid index, and `Get` and `Put` panic with an index out of range. -/
theorem negative_SetLayer_breaks_validity :
    calls bufferOps NewEncoderCache [.init plainBackend 0 0, .setLayer 0, .setLayer (-1)] =
      .ok { freshCache with curLayer := -1, keys := [none], values := [none] } ∧
    ¬ ValidLayer { freshCache with curLayer := -1, keys := [none], values := [none] } ∧
    Get { freshCache with curLayer := -1, keys := [none], values := [none] } emptyContext =
      .error .indexOutOfRange ∧
    Put bufferOps { freshCache with curLayer := -1, keys := [none], values := [none] }
      emptyContext sampleKey sampleValue = .error .indexOutOfRange :=
  ⟨rfl, by decide, rfl, rfl⟩

/-- C20, amended: in every state reached from `NewEncoderCache()` by calls that
all complete, the key store and the value store have the same length; once
`SetLayer(layer)` was called with `layer >= 0`, and as long as no later
`SetLayer` passes a negative layer, the current layer is a valid index of both
stores, `Get` returns and `Put` does not index out of range; `SetLayer` with a
negative layer changes only the current layer and leaves it out of range. -/
theorem wellformed {T : Type} (ops : ml.TensorOps T) (trace : List (Call T))
    (c : EncoderCache T) (hreach : calls ops NewEncoderCache trace = .ok c) :
    c.keys.length = c.values.length ∧
    (∀ (before after : List (Call T)) (layer : Int),
      trace = before ++ .setLayer layer :: after → 0 ≤ layer →
      (∀ later ∈ layersPassed after, 0 ≤ later) →
      ValidLayer c ∧
      (∀ ctx : ml.Context T, ∃ k v, Get c ctx = .ok ((k, v, none), c)) ∧
      (∀ (ctx : ml.Context T) (key value : T),
        Put ops c ctx key value ≠ .error .indexOutOfRange)) ∧
    (∀ (d : EncoderCache T) (layer : Int), layer < 0 →
      SetLayer d layer = .ok { d with curLayer := layer } ∧
      ¬ ValidLayer { d with curLayer := layer }) := by
  have hlenAll : ∀ (tr : List (Call T)) (d : EncoderCache T),
      calls ops NewEncoderCache tr = .ok d → d.keys.length = d.values.length := by
    intro tr d hd
    exact calls_induct ops (fun e => e.keys.length = e.values.length)
      (fun e op e2 he hcall => (call_lengths ops e e2 op hcall).2.2.1 he) tr NewEncoderCache d
      rfl hd
  refine ⟨hlenAll trace c hreach, ?_, ?_⟩
  · intro before after layer htrace hlayer hafter
    subst htrace
    rw [calls_append] at hreach
    cases hb : calls ops NewEncoderCache before with
    | error e => simp [hb] at hreach
    | ok c1 =>
      simp only [hb] at hreach
      cases hs : call ops c1 (.setLayer layer) with
      | error e => simp [calls, hs] at hreach
      | ok c2 =>
        simp only [calls, hs] at hreach
        have hlen1 := hlenAll before c1 hb
        obtain ⟨hint, hok⟩ := call_setLayer_inv ops c1 c2 layer hs
        obtain ⟨c3, hset, hv3, -, hlen3, -⟩ :=
          SetLayer_valid c1 layer hlen1 hlayer (SetLayer_ok_fits c1 c2 layer hint.2 hok)
        have hc3 : c3 = c2 := Except.ok.inj (hset.symm.trans hok)
        subst hc3
        obtain ⟨-, hvalid⟩ := calls_valid ops after c3 c hreach hafter hlen3 hv3
        refine ⟨hvalid, fun ctx => ?_, fun ctx key value => Put_valid_in_range ops c ctx key value hvalid⟩
        obtain ⟨h0, hkl, hvl⟩ := hvalid
        have hkl2 : c.curLayer.toNat < c.keys.length := by omega
        have hvl2 : c.curLayer.toNat < c.values.length := by omega
        exact ⟨_, _, Get_eq c ctx _ _ h0 (List.getElem?_eq_getElem hkl2)
          (List.getElem?_eq_getElem hvl2)⟩
  · intro d layer hneg
    refine ⟨SetLayer_keep d layer (by omega), fun hvalid => ?_⟩
    have h0 : 0 ≤ layer := hvalid.1
    omega

/-- Witness for C20: the state after `sampleTrace`. -/
theorem wellformed_witness :
    calls bufferOps NewEncoderCache sampleTrace = .ok cachedCache ∧
    cachedCache.keys.length = cachedCache.values.length ∧
    ValidLayer cachedCache ∧
    (∀ ctx : ml.Context Buffer, ∃ k v, Get cachedCache ctx = .ok ((k, v, none), cachedCache)) :=
  ⟨rfl, (wellformed bufferOps sampleTrace cachedCache rfl).1,
    ((wellformed bufferOps sampleTrace cachedCache rfl).2.1
      [.init plainBackend 0 0, .startForward emptyContext [5] [0]]
      [.put emptyContext sampleKey sampleValue] 1 rfl (by decide) (by decide)).1,
    ((wellformed bufferOps sampleTrace cachedCache rfl).2.1
      [.init plainBackend 0 0, .startForward emptyContext [5] [0]]
      [.put emptyContext sampleKey sampleValue] 1 rfl (by decide) (by decide)).2.1⟩

end kvcache
